import Mathlib

/-! # Data marshaler (`ch16/data-marshaler/main.go`)

A shallow embedding of the reflection based CSV binder of `main.go`:
`Marshal` turns a slice of structs into rows of strings, `Unmarshal` appends
to a slice of structs one record per data row of a grid of strings.

Scope of the embedding.

* A struct type is the list of its fields in declaration order; a field has
  a name, the package path `reflect` records for an unexported field, a
  `reflect.Kind` and a struct tag (its `key:"value"` pairs).
* A struct value is the list of its field values, in the same order.
* `int` is the 64 bit `int` of the usual targets.
* Go strings are rendered as Lean strings; the loops of `strconv` that range
  over bytes range over characters here (a byte of a multi-byte character is
  never a sign or a digit, so both reject at the same place).
* `Marshal` and `Unmarshal` are embedded for arguments that pass their three
  `reflect.Kind` guards (a slice of structs, a pointer to a slice of
  structs): the types of the arguments below admit nothing else.
* Reflection reads every field but sets only an exported one: `SetString`,
  `SetInt` and `SetBool` panic on a field reached through an unexported
  struct field.
* A run ends by returning `nil`, by returning an error value, or by a
  run-time panic (an index out of range, a `Set` on an unexported field);
  the destination slice is threaded through explicitly.
-/

namespace DataMarshaler

/-! ## Reflection data model -/

/-- The kinds of `reflect.Kind` a struct field can have and that the switch
statements of the marshaler send to their `default` branch. -/
inductive OtherKind where
  | Int8 | Int16 | Int32 | Int64
  | Uint | Uint8 | Uint16 | Uint32 | Uint64 | Uintptr
  | Float32 | Float64 | Complex64 | Complex128
  | Array | Chan | Func | Interface | Map | Pointer | Slice | Struct
  | UnsafePointer
  deriving DecidableEq, Repr

/-- The `reflect.Kind` of a field: the three kinds the marshaler has a case
for, and the others. -/
inductive Kind where
  | String
  | Int
  | Bool
  | Other (k : OtherKind)
  deriving DecidableEq, Repr

/-- A struct tag, as the list of its `key:"value"` pairs in the order in
which they are written. -/
abbrev StructTag := List (String × String)

/-- Go's `StructTag.Lookup`: the value of the first pair with that key, and
whether there is one. -/
def StructTag.Lookup : StructTag → String → Option String
  | [], _ => none
  | (k, v) :: rest, key => if k = key then some v else StructTag.Lookup rest key

/-- Go's `StructTag.Get`: as `Lookup`, with the empty string when the key is
absent. -/
def StructTag.Get (tag : StructTag) (key : String) : String :=
  (StructTag.Lookup tag key).getD ""

/-- A `reflect.StructField`: name, kind of the field's type, tag, and the
package path, which `reflect` leaves empty for an exported field and sets to
the path of the package for an unexported one. -/
structure StructField where
  Name : String
  Kind : Kind
  Tag : StructTag
  PkgPath : String := ""
  deriving DecidableEq, Repr

/-- Whether the field is exported. Go exports a field whose name begins with
an upper-case letter. For a name that begins with an ASCII character the
test is made on that character (a lower-case letter and the underscore are
not upper case); the table of the other upper-case letters of Unicode is not
part of this development, so for any other name the answer is the one
`reflect` records in the field, an empty `PkgPath`. -/
def StructField.IsExported (f : StructField) : Bool :=
  match f.Name.data with
  | [] => false
  | c :: _ => if c.toNat < 128 then c.isUpper else decide (f.PkgPath = "")

/-- A struct type: its fields in declaration order. -/
abbrev StructType := List StructField

/-- The value of one field. A value of a kind the marshaler has no case for
is never read or written by it; it is kept as its kind and a code, where
code `0` stands for the zero value of that kind. -/
inductive Value where
  | str (s : String)
  | int (i : Int)
  | bool (b : Bool)
  | other (k : OtherKind) (code : Nat)
  deriving DecidableEq, Repr

/-- Go's `reflect.Value.Kind` on a field value. -/
def Value.Kind : Value → Kind
  | .str _ => .String
  | .int _ => .Int
  | .bool _ => .Bool
  | .other k _ => .Other k

/-- The zero value of a kind. -/
def zeroValue : Kind → Value
  | .String => .str ""
  | .Int => .int 0
  | .Bool => .bool false
  | .Other k => .other k 0

/-- A struct value: the values of its fields in declaration order. -/
abbrev Record := List Value

/-- Go's `reflect.New(structType).Elem()`: the zero value of the struct. -/
def zeroRecord (t : StructType) : Record :=
  t.map (fun f => zeroValue f.Kind)

/-- The least `int64`. -/
def minInt64 : Int := -(2 ^ 63)

/-- The greatest `int64`. -/
def maxInt64 : Int := 2 ^ 63 - 1

/-- A field value is a value of the field's type: it has the field's kind,
and an `int` is in the range of 64 bit integers. -/
def Value.HasType (v : Value) (f : StructField) : Prop :=
  v.Kind = f.Kind ∧ ∀ i, v = .int i → minInt64 ≤ i ∧ i ≤ maxInt64

instance (v : Value) (f : StructField) : Decidable (v.HasType f) := by
  unfold Value.HasType
  cases v with
  | int i =>
    exact decidable_of_iff (Value.Kind (.int i) = f.Kind ∧ (minInt64 ≤ i ∧ i ≤ maxInt64))
      ⟨fun h => ⟨h.1, fun j hj => by cases hj; exact h.2⟩, fun h => ⟨h.1, h.2 i rfl⟩⟩
  | str s =>
    exact decidable_of_iff (Value.Kind (.str s) = f.Kind)
      ⟨fun h => ⟨h, fun j hj => by cases hj⟩, fun h => h.1⟩
  | bool b =>
    exact decidable_of_iff (Value.Kind (.bool b) = f.Kind)
      ⟨fun h => ⟨h, fun j hj => by cases hj⟩, fun h => h.1⟩
  | other k c =>
    exact decidable_of_iff (Value.Kind (.other k c) = f.Kind)
      ⟨fun h => ⟨h, fun j hj => by cases hj⟩, fun h => h.1⟩

/-- A record is a value of the struct type: one value per field, each of
the field's type. -/
def Record.HasType : Record → StructType → Prop
  | [], [] => True
  | v :: vs, f :: fs => v.HasType f ∧ Record.HasType vs fs
  | _, _ => False

instance Record.decHasType : (r : Record) → (t : StructType) → Decidable (Record.HasType r t)
  | [], [] => isTrue trivial
  | v :: vs, f :: fs =>
    have := Record.decHasType vs fs
    inferInstanceAs (Decidable (v.HasType f ∧ Record.HasType vs fs))
  | [], _ :: _ => isFalse (fun h => h)
  | _ :: _, [] => isFalse (fun h => h)

/-! ## Errors and outcomes -/

/-- The two sentinel errors of `strconv`. -/
inductive NumErrKind where
  | ErrSyntax
  | ErrRange
  deriving DecidableEq, Repr

/-- The error values the marshaler can return: a `*strconv.NumError` with
its three fields, the result of `fmt.Errorf` with a format and the kind it
prints, and the result of `errors.New`. -/
inductive GoError where
  | NumError (Func : String) (Num : String) (Err : NumErrKind)
  | Errorf (format : String) (kind : Kind)
  | New (text : String)
  deriving DecidableEq, Repr

/-- A run-time panic of Go: an index expression out of range, or the panic
of `reflect` when a method that sets a value (`SetString`, `SetInt`,
`SetBool`) is called on a value obtained using an unexported field. -/
inductive GoPanic where
  | indexOutOfRange (index : Nat) (length : Nat)
  | unexportedField (method : String)
  deriving DecidableEq, Repr

/-- How a call of `Unmarshal` ends: `nil` returned, an error returned, or a
panic. -/
inductive Outcome where
  | nil
  | error (e : GoError)
  | panic (p : GoPanic)
  deriving DecidableEq, Repr

/-- Equality of results is decidable, so that calls can be evaluated. -/
instance instDecidableEqExcept {ε α : Type} [DecidableEq ε] [DecidableEq α] :
    DecidableEq (Except ε α)
  | .ok a, .ok b => decidable_of_iff (a = b) ⟨fun h => by rw [h], fun h => by cases h; rfl⟩
  | .error a, .error b => decidable_of_iff (a = b) ⟨fun h => by rw [h], fun h => by cases h; rfl⟩
  | .ok _, .error _ => isFalse (fun h => by cases h)
  | .error _, .ok _ => isFalse (fun h => by cases h)

/-! ## The functions of `strconv` the marshaler calls

Embedded from the Go standard library for the arguments the marshaler
passes: base 10 and bit size 64. -/

/-- Go's `strconv.FormatBool`. -/
def FormatBool (b : Bool) : String :=
  if b then "true" else "false"

/-- Go's `strconv.ParseBool`: exactly twelve spellings are accepted. -/
def ParseBool (str : String) : Except GoError Bool :=
  if str = "1" ∨ str = "t" ∨ str = "T" ∨ str = "true" ∨ str = "TRUE" ∨ str = "True" then
    .ok true
  else if str = "0" ∨ str = "f" ∨ str = "F" ∨ str = "false" ∨ str = "FALSE" ∨ str = "False" then
    .ok false
  else
    .error (.NumError "ParseBool" str .ErrSyntax)

/-- The decimal digit character of a number below ten. -/
def digitChar : Nat → Char
  | 0 => '0'
  | 1 => '1'
  | 2 => '2'
  | 3 => '3'
  | 4 => '4'
  | 5 => '5'
  | 6 => '6'
  | 7 => '7'
  | 8 => '8'
  | _ => '9'

/-- The digit loop of `strconv.formatBits` in base 10: the last digit is
`u % 10`, the digits before it are those of `u / 10`, and a number below ten
is a single digit. The first argument bounds the number of rounds. -/
def formatBits : Nat → Nat → List Char
  | 0, u => [digitChar (u % 10)]
  | fuel + 1, u =>
    if u < 10 then [digitChar u]
    else formatBits fuel (u / 10) ++ [digitChar (u % 10)]

/-- Go's `strconv.FormatInt(i, 10)`: the digits of the magnitude, after a
minus sign when `i` is negative. -/
def FormatInt (i : Int) : String :=
  if i < 0 then String.mk ('-' :: formatBits i.natAbs i.natAbs)
  else String.mk (formatBits i.natAbs i.natAbs)

/-- The test `'0' <= c && c <= '9'` of `strconv.ParseUint`. -/
def isDecimalDigit (c : Char) : Bool :=
  decide ('0'.toNat ≤ c.toNat ∧ c.toNat ≤ '9'.toNat)

/-- The loop of `strconv.ParseUint(s, 10, 64)` over the characters of `s`,
from the value `n` read so far; `uint64` arithmetic wraps modulo `2 ^ 64`.
In base 10 a letter is a digit that is not below the base, so every
character other than a decimal digit is a syntax error. The result is the
pair Go returns: a value and an error (none for `nil`). -/
def ParseUint.loop : List Char → Nat → Nat × Option NumErrKind
  | [], n => (n, none)
  | c :: cs, n =>
    if isDecimalDigit c then
      let d := c.toNat - '0'.toNat
      -- cutoff = maxUint64/10 + 1
      if n ≥ (2 ^ 64 - 1) / 10 + 1 then (2 ^ 64 - 1, some .ErrRange)
      else
        let n10 := (n * 10) % 2 ^ 64
        let n1 := (n10 + d) % 2 ^ 64
        if n1 < n10 ∨ n1 > 2 ^ 64 - 1 then (2 ^ 64 - 1, some .ErrRange)
        else ParseUint.loop cs n1
    else (0, some .ErrSyntax)

/-- Go's `strconv.ParseUint(s, 10, 64)` on the characters of `s`. -/
def ParseUint (s : List Char) : Nat × Option NumErrKind :=
  match s with
  | [] => (0, some .ErrSyntax)
  | _ => ParseUint.loop s 0

/-- Go's `strconv.ParseInt(s, 10, 64)`: an optional leading sign, then
`ParseUint`, then the range check against `1 << 63`. Every error is a
`*NumError` with `Func` set to "ParseInt" and `Num` to the whole input. -/
def ParseInt (s : String) : Except GoError Int :=
  match s.data with
  | [] => .error (.NumError "ParseInt" s .ErrSyntax)
  | c :: cs =>
    let neg := c = '-'
    let rest := if c = '+' ∨ c = '-' then cs else c :: cs
    match ParseUint rest with
    | (_, some .ErrSyntax) => .error (.NumError "ParseInt" s .ErrSyntax)
    | (un, _) =>
      if ¬ neg ∧ un ≥ 2 ^ 63 then .error (.NumError "ParseInt" s .ErrRange)
      else if neg ∧ un > 2 ^ 63 then .error (.NumError "ParseInt" s .ErrRange)
      else if neg then .ok (-(un : Int))
      else .ok (un : Int)

/-! ## `main.go` -/

/-- The constant `TAG_PREFIX` of `main.go`: the key of the column tag. -/
def TAG_PREFIX : String := "csv"

/-- The function `marshalHeader` of `main.go`: the tags of the fields for
which `Tag.Lookup` finds the key, in field order. -/
def marshalHeader : StructType → List String
  | [] => []
  | field :: rest =>
    match field.Tag.Lookup TAG_PREFIX with
    | some tag => tag :: marshalHeader rest
    | none => marshalHeader rest

/-- The function `marshalOne` of `main.go`, on a struct type and the field
values of one struct: fields without the key are passed over, the switch is
on the kind of the field value, and the first field the switch has no case
for ends the call with an error. -/
def marshalOne : StructType → Record → Except GoError (List String)
  | field :: fields, fieldVal :: vals =>
    match field.Tag.Lookup TAG_PREFIX with
    | none => marshalOne fields vals
    | some _ =>
      match fieldVal with
      | .str s =>
        match marshalOne fields vals with
        | .ok out => .ok (s :: out)
        | .error err => .error err
      | .bool b =>
        match marshalOne fields vals with
        | .ok out => .ok (FormatBool b :: out)
        | .error err => .error err
      | .int i =>
        match marshalOne fields vals with
        | .ok out => .ok (FormatInt i :: out)
        | .error err => .error err
      | .other k _ => .error (.Errorf "cannot handle field of kind %v" (.Other k))
  | _, _ => .ok []

/-- The loop of `Marshal` over the elements of the slice: one row per
element, and the first error ends the call. -/
def Marshal.loop (structType : StructType) : List Record → Except GoError (List (List String))
  | [] => .ok []
  | rowVal :: rest =>
    match marshalOne structType rowVal with
    | .error err => .error err
    | .ok row =>
      match Marshal.loop structType rest with
      | .error err => .error err
      | .ok out => .ok (row :: out)

/-- The function `Marshal` of `main.go` on a slice of structs of type
`structType`: the header, then the rows of the loop; on an error no rows
are returned. -/
def Marshal (structType : StructType) (sliceVal : List Record) :
    Except GoError (List (List String)) :=
  match Marshal.loop structType sliceVal with
  | .error err => .error err
  | .ok out => .ok (marshalHeader structType :: out)

/-- The map `namePos` of `Unmarshal`, from a column name to a position. -/
abbrev NamePos := String → Option Nat

/-- The loop `for i, name := range header { namePos[name] = i }`, from
position `i` on: a later assignment to the same name replaces the earlier
one. -/
def Unmarshal.namePos.loop : List String → Nat → NamePos → NamePos
  | [], _, namePos => namePos
  | name :: rest, i, namePos =>
    Unmarshal.namePos.loop rest (i + 1) (fun key => if key = name then some i else namePos key)

/-- The map `namePos` that `Unmarshal` builds from the header row. -/
def Unmarshal.namePos (header : List String) : NamePos :=
  Unmarshal.namePos.loop header 0 (fun _ => none)

/-- What one round of the loop of `unmarshalOne` does to its field: nothing
(`continue`), set it, or end the call. -/
inductive FieldStep where
  | skip
  | set (v : Value)
  | stop (o : Outcome)
  deriving DecidableEq, Repr

/-- Go's `field.SetString`, `field.SetInt` and `field.SetBool` on a field of
the struct being filled: the field is set when it is exported, and the
method panics when it is not. -/
def reflectSet (typeField : StructField) (method : String) (v : Value) : FieldStep :=
  if typeField.IsExported then .set v else .stop (.panic (.unexportedField method))

/-- The body of the loop of `unmarshalOne` for one field: the position is
looked up under `Tag.Get`, which is the empty string for a field without the
key; `row[pos]` panics when the row has no such cell; the switch is on the
kind of the field, and a cell that parses is set into the field. -/
def unmarshalField (row : List String) (namePos : NamePos) (typeField : StructField) :
    FieldStep :=
  match namePos (typeField.Tag.Get TAG_PREFIX) with
  | none => .skip
  | some pos =>
    match row[pos]? with
    | none => .stop (.panic (.indexOutOfRange pos row.length))
    | some val =>
      match typeField.Kind with
      | .String => reflectSet typeField "SetString" (.str val)
      | .Int =>
        match ParseInt val with
        | .error err => .stop (.error err)
        | .ok i => reflectSet typeField "SetInt" (.int i)
      | .Bool =>
        match ParseBool val with
        | .error err => .stop (.error err)
        | .ok b => reflectSet typeField "SetBool" (.bool b)
      | .Other k => .stop (.error (.Errorf "cannot handle field of %v" (.Other k)))

/-- The loop of `unmarshalOne` from field `i` on: the fields still to visit,
the index of the first of them, and the struct value being filled. -/
def unmarshalOne.loop (row : List String) (namePos : NamePos) :
    List StructField → Nat → Record → Record × Outcome
  | [], _, newVal => (newVal, .nil)
  | typeField :: fields, i, newVal =>
    match unmarshalField row namePos typeField with
    | .skip => unmarshalOne.loop row namePos fields (i + 1) newVal
    | .set v => unmarshalOne.loop row namePos fields (i + 1) (newVal.set i v)
    | .stop o => (newVal, o)

/-- The function `unmarshalOne` of `main.go`: fills `newVal`, a struct of
type `vt`, from one row. The result is the struct as the call leaves it,
and how the call ends. -/
def unmarshalOne (row : List String) (namePos : NamePos) (vt : StructType) (newVal : Record) :
    Record × Outcome :=
  unmarshalOne.loop row namePos vt 0 newVal

/-- The loop of `Unmarshal` over `data[1:]`: a row that decodes appends its
struct to the slice; the first row that does not ends the call, with the
slice as it is. -/
def Unmarshal.loop (structType : StructType) (namePos : NamePos) :
    List (List String) → List Record → List Record × Outcome
  | [], sliceVal => (sliceVal, .nil)
  | row :: rest, sliceVal =>
    match unmarshalOne row namePos structType (zeroRecord structType) with
    | (newVal, .nil) => Unmarshal.loop structType namePos rest (sliceVal ++ [newVal])
    | (_, o) => (sliceVal, o)

/-- The function `Unmarshal` of `main.go` on a grid and a pointer to a slice
of structs of type `structType` whose content is `sliceVal`: the content of
the slice when the call ends, and how the call ends. Reading `data[0]` of a
grid without rows panics. -/
def Unmarshal (structType : StructType) (data : List (List String)) (sliceVal : List Record) :
    List Record × Outcome :=
  match data with
  | [] => (sliceVal, .panic (.indexOutOfRange 0 0))
  | header :: rows => Unmarshal.loop structType (Unmarshal.namePos header) rows sliceVal

/-- The struct type `MyData` of `main.go`. -/
def MyData : StructType :=
  [ { Name := "Name", Kind := .String, Tag := [("csv", "name")] },
    { Name := "Age", Kind := .Int, Tag := [("csv", "age")] },
    { Name := "HasPet", Kind := .Bool, Tag := [("csv", "has_pet")] } ]

/-! ## Notions the properties are stated with -/

/-- The column tag of a field: the value `Tag.Lookup` finds under the key,
none for a field that does not have the key. A field with a column tag is a
bound field. -/
def columnTag (f : StructField) : Option String :=
  f.Tag.Lookup TAG_PREFIX

/-- The column tags of the bound fields of a struct type, in declaration
order. -/
def boundTags (t : StructType) : List String :=
  t.filterMap columnTag

/-- The values a struct holds in its bound fields, in declaration order. -/
def boundValues : StructType → Record → List Value
  | f :: fs, v :: vs =>
    if (columnTag f).isSome then v :: boundValues fs vs else boundValues fs vs
  | _, _ => []

/-- Every bound field of the struct type is of kind string, int or bool. -/
def SupportedKinds (t : StructType) : Prop :=
  ∀ f ∈ t, (columnTag f).isSome → f.Kind = .String ∨ f.Kind = .Int ∨ f.Kind = .Bool

instance (t : StructType) : Decidable (SupportedKinds t) := by
  unfold SupportedKinds; infer_instance

/-- The canonical decimal text of an integer: digits in base 10, most
significant first, at least one, no leading zero (the text of zero is the
single digit 0), after a minus sign exactly when the integer is negative. -/
def IsCanonicalDecimal (i : Int) (s : String) : Prop :=
  ∃ ds : List Nat, ds ≠ [] ∧ (∀ d ∈ ds, d < 10) ∧ (ds.head? = some 0 → ds = [0]) ∧
    Nat.ofDigits 10 ds.reverse = i.natAbs ∧
    s.data = (if i < 0 then ['-'] else []) ++ ds.map digitChar

/-- The external text of a field value: the string itself, the canonical
decimal text of an integer, the literal true or false of a boolean. -/
def IsExternalText : Value → String → Prop
  | .str x, s => s = x
  | .int i, s => IsCanonicalDecimal i s
  | .bool b, s => s = (if b then "true" else "false")
  | .other _ _, _ => False

/-- The greatest index at which a column name occurs in a header, none
when it does not occur. -/
def lastIndexOf : List String → String → Option Nat
  | [], _ => none
  | name :: rest, key =>
    match lastIndexOf rest key with
    | some j => some (j + 1)
    | none => if key = name then some 0 else none

/-- The loop of `unmarshalOne` seen on the values of the fields it still has
to visit: a field that is passed over keeps its value, a field that is set
gets the new one, and when a field ends the call the values are left as they
are. -/
def unmarshalOne.fill (row : List String) (namePos : NamePos) :
    List StructField → List Value → List Value × Outcome
  | typeField :: fields, v :: vals =>
    match unmarshalField row namePos typeField with
    | .skip => (v :: (unmarshalOne.fill row namePos fields vals).1,
                (unmarshalOne.fill row namePos fields vals).2)
    | .set w => (w :: (unmarshalOne.fill row namePos fields vals).1,
                 (unmarshalOne.fill row namePos fields vals).2)
    | .stop o => (v :: vals, o)
  | _, vals => (vals, .nil)

/-- Whether a round of the loop of `unmarshalOne` ends the call. -/
def FieldStep.isStop : FieldStep → Bool
  | .stop _ => true
  | _ => false

/-- The struct type `MyData` with the field `Age` renamed: same kinds, same
tags. -/
def MyDataRenamed : StructType :=
  [ { Name := "Name", Kind := .String, Tag := [("csv", "name")] },
    { Name := "Years", Kind := .Int, Tag := [("csv", "age")] },
    { Name := "HasPet", Kind := .Bool, Tag := [("csv", "has_pet")] } ]

/-- A row with its cells rearranged: the cell at position `j` of the result
is the cell the list of positions `p` names at `j`. -/
def permuteRow (p : List Nat) (row : List String) : List String :=
  p.map (fun i => row.getD i "")

/-- A struct type with a field that has no column tag. -/
def NamedNote : StructType :=
  [ { Name := "Name", Kind := .String, Tag := [("csv", "name")] },
    { Name := "Note", Kind := .String, Tag := [] } ]

/-- A struct type with two fields under the same column tag. -/
def TwoUnderOneTag : StructType :=
  [ { Name := "First", Kind := .String, Tag := [("csv", "x")] },
    { Name := "Second", Kind := .String, Tag := [("csv", "x")] } ]

/-- A base-10 signed integer text: an optional sign, then at least one
decimal digit and nothing else. -/
def IsDecimalText (s : String) : Prop :=
  ∃ sign digits : List Char, s.data = sign ++ digits ∧
    (sign = [] ∨ sign = ['+'] ∨ sign = ['-']) ∧ digits ≠ [] ∧
    ∀ c ∈ digits, isDecimalDigit c = true

/-- The struct a round trip gives back: the value of every bound field, the
zero value of every field without a column tag. -/
def keepBound : StructType → Record → Record
  | f :: fs, v :: vs =>
    (if (columnTag f).isSome then v else zeroValue f.Kind) :: keepBound fs vs
  | _, _ => []

/-- The text `marshalOne` writes for a field value it has a case for. -/
def externalText : Value → String
  | .str s => s
  | .int i => FormatInt i
  | .bool b => FormatBool b
  | .other _ _ => ""

/-- A struct type whose only field is bound, of kind string and unexported:
`struct { name string }` with the column tag name. -/
def Unexported : StructType :=
  [ { Name := "name", Kind := .String, Tag := [("csv", "name")], PkgPath := "main" } ]

/-- A struct type whose only field is bound and of kind float64. -/
def Scored : StructType :=
  [ { Name := "Score", Kind := .Other .Float64, Tag := [("csv", "score")] } ]

/-- A struct type with a bound field and an int field without a column
tag. -/
def AgeCount : StructType :=
  [ { Name := "Age", Kind := .Int, Tag := [("csv", "age")] },
    { Name := "Count", Kind := .Int, Tag := [] } ]

/-- The kind of the first bound field, in declaration order, that is not of
kind string, int or bool; none when every bound field is of one of the
three. -/
def firstUnsupported : StructType → Option OtherKind
  | [] => none
  | f :: fs =>
    match columnTag f, f.Kind with
    | some _, .Other k => some k
    | _, _ => firstUnsupported fs

/-- The six spellings `ParseBool` reads as true. -/
def trueSpellings : List String := ["1", "t", "T", "true", "TRUE", "True"]

/-- The six spellings `ParseBool` reads as false. -/
def falseSpellings : List String := ["0", "f", "F", "false", "FALSE", "False"]

/-- Two texts are equal up to the case of their letters. -/
def EqualUpToCase (s target : String) : Prop :=
  s.data.map Char.toLower = target.data.map Char.toLower

instance (s target : String) : Decidable (EqualUpToCase s target) := by
  unfold EqualUpToCase; infer_instance

/-- Two rows of the same length agree on the last column of every name: at
every position that is the greatest one holding its column name in the
header they hold the same cell. They may differ under earlier occurrences
of a name. -/
def AgreeOnLastColumns (header row row' : List String) : Prop :=
  row.length = row'.length ∧
    ∀ (key : String) (j : Nat), lastIndexOf header key = some j → row[j]? = row'[j]?

/-- The bound fields of a struct with their values, in declaration order. -/
def boundPairs : StructType → Record → List (StructField × Value)
  | f :: fs, v :: vs =>
    if (columnTag f).isSome then (f, v) :: boundPairs fs vs else boundPairs fs vs
  | _, _ => []

/-- An outcome with the text of a `fmt.Errorf` format blanked: what is left
of an error when its message is not looked at. -/
def Outcome.withoutText : Outcome → Outcome
  | .error (.Errorf _ kind) => .error (.Errorf "" kind)
  | o => o

/-- A struct type with a bound string field and a float64 field without a
column tag. -/
def NamedExtra : StructType :=
  [ { Name := "Name", Kind := .String, Tag := [("csv", "name")] },
    { Name := "Extra", Kind := .Other .Float64, Tag := [] } ]

/-- A struct type with two bound fields of unsupported kinds after a bound
string field. -/
def NamedScoreLabels : StructType :=
  [ { Name := "Name", Kind := .String, Tag := [("csv", "name")] },
    { Name := "Score", Kind := .Other .Float64, Tag := [("csv", "score")] },
    { Name := "Labels", Kind := .Other .Map, Tag := [("csv", "labels")] } ]

/-! ## `dataMarshaler.go`

The second file of the package declares the same functions again. They are
embedded under the same names in a namespace of their own. -/

namespace Copy

/-- The struct type `MyData` of `dataMarshaler.go`: the key of its tags is
spelled `cvs`. -/
def MyData : StructType :=
  [ { Name := "Name", Kind := .String, Tag := [("cvs", "name")] },
    { Name := "Age", Kind := .Int, Tag := [("cvs", "age")] },
    { Name := "HasPet", Kind := .Bool, Tag := [("cvs", "has_pet")] } ]

/-- The body of the loop of `unmarshalOne` of `dataMarshaler.go` for one
field: the position is looked up under `Tag.Get("csv")`, then `row[pos]` is
read, then the switch on the kind of the field: int, string, bool,
default. -/
def unmarshalField (row : List String) (namePos : NamePos) (typeField : StructField) :
    FieldStep :=
  match namePos (typeField.Tag.Get "csv") with
  | none => .skip
  | some pos =>
    match row[pos]? with
    | none => .stop (.panic (.indexOutOfRange pos row.length))
    | some val =>
      match typeField.Kind with
      | .Int =>
        match ParseInt val with
        | .error err => .stop (.error err)
        | .ok i => reflectSet typeField "SetInt" (.int i)
      | .String => reflectSet typeField "SetString" (.str val)
      | .Bool =>
        match ParseBool val with
        | .error err => .stop (.error err)
        | .ok b => reflectSet typeField "SetBool" (.bool b)
      | .Other k => .stop (.error (.Errorf "cannot handle field type %v" (.Other k)))

/-- The loop of `unmarshalOne` of `dataMarshaler.go` from field `i` on. -/
def unmarshalOne.loop (row : List String) (namePos : NamePos) :
    List StructField → Nat → Record → Record × Outcome
  | [], _, vv => (vv, .nil)
  | typeField :: fields, i, vv =>
    match unmarshalField row namePos typeField with
    | .skip => unmarshalOne.loop row namePos fields (i + 1) vv
    | .set v => unmarshalOne.loop row namePos fields (i + 1) (vv.set i v)
    | .stop o => (vv, o)

/-- The function `unmarshalOne` of `dataMarshaler.go`. -/
def unmarshalOne (row : List String) (namePos : NamePos) (vt : StructType) (vv : Record) :
    Record × Outcome :=
  unmarshalOne.loop row namePos vt 0 vv

/-- The loop `for i, name := range header { namePos[name] = i }` of
`dataMarshaler.go`. -/
def Unmarshal.namePos.loop : List String → Nat → NamePos → NamePos
  | [], _, namePos => namePos
  | name :: rest, i, namePos =>
    Unmarshal.namePos.loop rest (i + 1) (fun key => if key = name then some i else namePos key)

/-- The map `namePos` that `Unmarshal` of `dataMarshaler.go` builds. -/
def Unmarshal.namePos (header : List String) : NamePos :=
  Unmarshal.namePos.loop header 0 (fun _ => none)

/-- The loop of `Unmarshal` of `dataMarshaler.go` over `data[1:]`. -/
def Unmarshal.loop (structT : StructType) (namePos : NamePos) :
    List (List String) → List Record → List Record × Outcome
  | [], sliceVal => (sliceVal, .nil)
  | row :: rest, sliceVal =>
    match unmarshalOne row namePos structT (zeroRecord structT) with
    | (newVal, .nil) => Unmarshal.loop structT namePos rest (sliceVal ++ [newVal])
    | (_, o) => (sliceVal, o)

/-- The function `Unmarshal` of `dataMarshaler.go`. -/
def Unmarshal (structT : StructType) (data : List (List String)) (sliceVal : List Record) :
    List Record × Outcome :=
  match data with
  | [] => (sliceVal, .panic (.indexOutOfRange 0 0))
  | header :: rows => Unmarshal.loop structT (Unmarshal.namePos header) rows sliceVal

/-- The function `marshalHeader` of `dataMarshaler.go`. -/
def marshalHeader : StructType → List String
  | [] => []
  | field :: rest =>
    match field.Tag.Lookup "csv" with
    | some curTag => curTag :: marshalHeader rest
    | none => marshalHeader rest

/-- The function `marshalOne` of `dataMarshaler.go`: the switch on the kind
of the field value is int, string, bool, default. -/
def marshalOne : StructType → Record → Except GoError (List String)
  | field :: fields, fieldValue :: vals =>
    match field.Tag.Lookup "csv" with
    | none => marshalOne fields vals
    | some _ =>
      match fieldValue with
      | .int i =>
        match marshalOne fields vals with
        | .ok out => .ok (FormatInt i :: out)
        | .error err => .error err
      | .str s =>
        match marshalOne fields vals with
        | .ok out => .ok (s :: out)
        | .error err => .error err
      | .bool b =>
        match marshalOne fields vals with
        | .ok out => .ok (FormatBool b :: out)
        | .error err => .error err
      | .other k _ => .error (.Errorf "cannot handle field of kind %v" (.Other k))
  | _, _ => .ok []

/-- The loop of `Marshal` of `dataMarshaler.go` over the elements of the
slice. -/
def Marshal.loop (structT : StructType) : List Record → Except GoError (List (List String))
  | [] => .ok []
  | rowVal :: rest =>
    match marshalOne structT rowVal with
    | .error err => .error err
    | .ok row =>
      match Marshal.loop structT rest with
      | .error err => .error err
      | .ok out => .ok (row :: out)

/-- The function `Marshal` of `dataMarshaler.go`. -/
def Marshal (structT : StructType) (sliceVal : List Record) :
    Except GoError (List (List String)) :=
  match Marshal.loop structT sliceVal with
  | .error err => .error err
  | .ok out => .ok (marshalHeader structT :: out)

end Copy

/-! ## The loop of `Unmarshal` over the data rows -/

/-- When every row decodes, the loop appends the decoded structs in row
order and returns `nil`. -/
theorem Unmarshal.loop_of_all_nil (t : StructType) (m : NamePos) (rows : List (List String)) :
    ∀ D : List Record,
      (∀ row ∈ rows, (unmarshalOne row m t (zeroRecord t)).2 = .nil) →
      Unmarshal.loop t m rows D
        = (D ++ rows.map (fun row => (unmarshalOne row m t (zeroRecord t)).1), .nil) := by
  induction rows with
  | nil => intro D _; simp [Unmarshal.loop]
  | cons row rest ih =>
    intro D h
    have h1 := h row (List.mem_cons_self _ _)
    have h2 : ∀ r ∈ rest, (unmarshalOne r m t (zeroRecord t)).2 = .nil :=
      fun r hr => h r (List.mem_cons_of_mem _ hr)
    rw [Unmarshal.loop]
    rcases hu : unmarshalOne row m t (zeroRecord t) with ⟨newVal, o⟩
    rw [hu] at h1
    simp only at h1
    subst h1
    simp only [List.map_cons, hu]
    rw [ih _ h2]
    simp

/-- The loop stops at the first row that does not decode: the slice then
holds the structs of the rows before it, and the call ends as that row's
decoding ended. -/
theorem Unmarshal.loop_first_failure (t : StructType) (m : NamePos)
    (pre : List (List String)) (row : List String) (post : List (List String)) (o : Outcome)
    (hpre : ∀ r ∈ pre, (unmarshalOne r m t (zeroRecord t)).2 = .nil)
    (hrow : (unmarshalOne row m t (zeroRecord t)).2 = o) (ho : o ≠ .nil) :
    ∀ D : List Record,
      Unmarshal.loop t m (pre ++ row :: post) D
        = (D ++ pre.map (fun r => (unmarshalOne r m t (zeroRecord t)).1), o) := by
  induction pre with
  | nil =>
    intro D
    rcases hu : unmarshalOne row m t (zeroRecord t) with ⟨newVal, o'⟩
    rw [hu] at hrow
    simp only at hrow
    subst hrow
    cases o' with
    | nil => exact absurd rfl ho
    | error e => simp [Unmarshal.loop, hu]
    | panic q => simp [Unmarshal.loop, hu]
  | cons r rest ih =>
    intro D
    have h1 := hpre r (List.mem_cons_self _ _)
    have h2 : ∀ x ∈ rest, (unmarshalOne x m t (zeroRecord t)).2 = .nil :=
      fun x hx => hpre x (List.mem_cons_of_mem _ hx)
    rcases hu : unmarshalOne r m t (zeroRecord t) with ⟨newVal, o'⟩
    rw [hu] at h1
    simp only at h1
    subst h1
    have hstep : Unmarshal.loop t m ((r :: rest) ++ row :: post) D
        = Unmarshal.loop t m (rest ++ row :: post) (D ++ [newVal]) := by
      rw [List.cons_append, Unmarshal.loop, hu]
    rw [hstep, ih h2]
    simp [hu]

/-- A loop that returns `nil` decoded every row. -/
theorem Unmarshal.loop_nil_all (t : StructType) (m : NamePos) (rows : List (List String)) :
    ∀ D : List Record, (Unmarshal.loop t m rows D).2 = .nil →
      ∀ row ∈ rows, (unmarshalOne row m t (zeroRecord t)).2 = .nil := by
  induction rows with
  | nil => intro D _ row hrow; cases hrow
  | cons r rest ih =>
    intro D h row hrow
    rw [Unmarshal.loop] at h
    rcases hu : unmarshalOne r m t (zeroRecord t) with ⟨newVal, o'⟩
    rw [hu] at h
    cases o' with
    | nil =>
      simp only at h
      rcases List.mem_cons.1 hrow with rfl | hmem
      · rw [hu]
      · exact ih _ h row hmem
    | error e => simp at h
    | panic q => simp at h

/-- C6 (no rollback). If a data row is the first whose decoding does not end
with `nil`, `Unmarshal` ends as that row's decoding ended (returning its
error when it returned one), and the destination is then the initial
destination followed by the structs of the rows before it, in order: nothing
is appended for that row or a later one, nothing is taken back. -/
theorem Unmarshal_no_rollback (t : StructType) (header : List String)
    (pre : List (List String)) (row : List String) (post : List (List String))
    (D : List Record) (o : Outcome)
    (hpre : ∀ r ∈ pre, (unmarshalOne r (Unmarshal.namePos header) t (zeroRecord t)).2 = .nil)
    (hrow : (unmarshalOne row (Unmarshal.namePos header) t (zeroRecord t)).2 = o)
    (ho : o ≠ .nil) :
    Unmarshal t (header :: (pre ++ row :: post)) D
      = (D ++ pre.map (fun r => (unmarshalOne r (Unmarshal.namePos header) t (zeroRecord t)).1),
         o) := by
  rw [Unmarshal]
  exact Unmarshal.loop_first_failure t _ pre row post o hpre hrow ho D

/-- C7 (decode appends). When `Unmarshal` returns `nil`, the grid has a
header row, and the destination is the initial destination followed by one
struct per data row, in row order, each decoded from its own row: its length
is the initial length plus the number of rows less one, its first elements
are the initial ones, and no struct comes from the header row. -/
theorem Unmarshal_appends (t : StructType) (data : List (List String)) (D : List Record)
    (h : (Unmarshal t data D).2 = .nil) :
    ∃ header rows, data = header :: rows ∧
      (Unmarshal t data D).1
        = D ++ rows.map
            (fun row => (unmarshalOne row (Unmarshal.namePos header) t (zeroRecord t)).1) ∧
      (Unmarshal t data D).1.length = D.length + (data.length - 1) ∧
      (Unmarshal t data D).1.take D.length = D := by
  cases data with
  | nil => simp [Unmarshal] at h
  | cons header rows =>
    refine ⟨header, rows, rfl, ?_⟩
    rw [Unmarshal] at h ⊢
    have hall := Unmarshal.loop_nil_all t _ rows D h
    rw [Unmarshal.loop_of_all_nil t _ rows D hall]
    simp

/-! ## The map from column names to positions -/

/-- The map the header loop builds sends a name of the header to the
greatest of its positions, shifted by the start position, and leaves the
other names as they were. -/
theorem Unmarshal.namePos.loop_eq (header : List String) (key : String) :
    ∀ (i : Nat) (m : NamePos),
      Unmarshal.namePos.loop header i m key
        = match lastIndexOf header key with
          | some j => some (i + j)
          | none => m key := by
  induction header with
  | nil => intro i m; simp [Unmarshal.namePos.loop, lastIndexOf]
  | cons name rest ih =>
    intro i m
    rw [Unmarshal.namePos.loop, ih, lastIndexOf]
    cases h : lastIndexOf rest key with
    | some j => simp; omega
    | none =>
      by_cases hk : key = name
      · simp [hk]
      · simp [hk]

/-- The map `Unmarshal` builds sends a name to its last position in the
header. -/
theorem Unmarshal.namePos_eq (header : List String) (key : String) :
    Unmarshal.namePos header key = lastIndexOf header key := by
  rw [Unmarshal.namePos, Unmarshal.namePos.loop_eq]
  cases lastIndexOf header key <;> simp

/-- A name has no last position exactly when it is not in the header. -/
theorem lastIndexOf_eq_none (header : List String) (key : String) :
    lastIndexOf header key = none ↔ key ∉ header := by
  induction header with
  | nil => simp [lastIndexOf]
  | cons name rest ih =>
    rw [lastIndexOf]
    cases h : lastIndexOf rest key with
    | some j =>
      have : key ∈ rest := by
        by_contra hc
        rw [ih.2 hc] at h
        cases h
      simp [this]
    | none =>
      have hnot := ih.1 h
      by_cases hk : key = name
      · simp [hk]
      · simp [hk, hnot]

/-- The last position of a name holds that name, and no later position
does. -/
theorem lastIndexOf_eq_some (header : List String) (key : String) :
    ∀ j, lastIndexOf header key = some j →
      header[j]? = some key ∧ ∀ j', j < j' → header[j']? ≠ some key := by
  induction header with
  | nil => intro j h; simp [lastIndexOf] at h
  | cons name rest ih =>
    intro j h
    rw [lastIndexOf] at h
    cases hl : lastIndexOf rest key with
    | some k =>
      rw [hl] at h
      simp only [Option.some.injEq] at h
      subst h
      obtain ⟨h1, h2⟩ := ih k hl
      refine ⟨by simpa using h1, ?_⟩
      intro j' hj'
      cases j' with
      | zero => omega
      | succ n => simpa using h2 n (by omega)
    | none =>
      rw [hl] at h
      by_cases hk : key = name
      · simp only [hk, if_true, Option.some.injEq] at h
        subst h
        refine ⟨by simp [hk], ?_⟩
        intro j' hj'
        cases j' with
        | zero => omega
        | succ n =>
          have hnot := (lastIndexOf_eq_none rest key).1 hl
          intro hc
          simp only [List.getElem?_cons_succ] at hc
          exact hnot (List.getElem?_mem hc)
      · simp [hk] at h

/-- Two positions of a header that hold the same name give two occurrences
of it. -/
theorem count_ge_two_of_two_positions (header : List String) (key : String) :
    ∀ a b : Nat, a < b → header[a]? = some key → header[b]? = some key →
      2 ≤ header.count key := by
  induction header with
  | nil => intro a b _ h; simp at h
  | cons name rest ih =>
    intro a b hab ha hb
    cases b with
    | zero => omega
    | succ b' =>
      simp only [List.getElem?_cons_succ] at hb
      cases a with
      | zero =>
        simp only [List.getElem?_cons_zero, Option.some.injEq] at ha
        subst ha
        have hmem : name ∈ rest := List.getElem?_mem hb
        have := List.count_pos_iff.2 hmem
        simp only [List.count_cons_self]
        omega
      | succ a' =>
        simp only [List.getElem?_cons_succ] at ha
        have := ih a' b' (by omega) ha hb
        have hle : rest.count key ≤ (name :: rest).count key := by
          rw [List.count_cons]; omega
        omega

/-- A name that occurs at most once in the header is mapped to the position
that holds it. -/
theorem lastIndexOf_of_count_le_one (header : List String) (key : String) (j : Nat)
    (hc : header.count key ≤ 1) (hj : header[j]? = some key) :
    lastIndexOf header key = some j := by
  cases h : lastIndexOf header key with
  | none =>
    have := (lastIndexOf_eq_none header key).1 h
    exact absurd (List.getElem?_mem hj) this
  | some k =>
    obtain ⟨hk, -⟩ := lastIndexOf_eq_some header key k h
    rcases Nat.lt_trichotomy j k with hlt | heq | hgt
    · have := count_ge_two_of_two_positions header key j k hlt hj hk
      omega
    · rw [heq]
    · have := count_ge_two_of_two_positions header key k j hgt hk hj
      omega

/-! ## The loop of `unmarshalOne` -/

/-- The loop of `unmarshalOne` from field `i` on leaves the first `i` values
alone and acts on the others, one per field, as `fill` says. -/
theorem unmarshalOne.loop_eq_fill (row : List String) (m : NamePos) :
    ∀ (fs : List StructField) (pre vs : List Value), vs.length = fs.length →
      unmarshalOne.loop row m fs pre.length (pre ++ vs)
        = (pre ++ (unmarshalOne.fill row m fs vs).1, (unmarshalOne.fill row m fs vs).2) := by
  intro fs
  induction fs with
  | nil => intro pre vs _; simp [unmarshalOne.loop, unmarshalOne.fill]
  | cons f fs ih =>
    intro pre vs hvs
    cases vs with
    | nil => simp at hvs
    | cons v vs =>
      have hvs' : vs.length = fs.length := by simpa using hvs
      rw [unmarshalOne.loop, unmarshalOne.fill]
      have hpre : ∀ w, pre ++ w :: vs = (pre ++ [w]) ++ vs := by intro w; simp
      have hlen : ∀ w, (pre ++ [w]).length = pre.length + 1 := by intro w; simp
      cases hstep : unmarshalField row m f with
      | skip =>
        simp only
        rw [hpre v, ← hlen v, ih (pre ++ [v]) vs hvs']
        simp
      | set w =>
        simp only
        have hs : (pre ++ v :: vs).set pre.length w = (pre ++ [w]) ++ vs := by simp
        rw [hs, ← hlen w, ih (pre ++ [w]) vs hvs']
        simp
      | stop o => simp

/-- The function `unmarshalOne` on the zero struct, through `fill`. -/
theorem unmarshalOne_eq_fill (row : List String) (m : NamePos) (t : StructType) :
    unmarshalOne row m t (zeroRecord t) = unmarshalOne.fill row m t (zeroRecord t) := by
  have h := unmarshalOne.loop_eq_fill row m t [] (zeroRecord t) (by simp [zeroRecord])
  simpa [unmarshalOne] using h

/-- The key `unmarshalOne` looks a bound field up under is its column tag. -/
theorem Get_of_columnTag (f : StructField) (tag : String) (h : columnTag f = some tag) :
    f.Tag.Get TAG_PREFIX = tag := by
  simp only [columnTag] at h
  simp [StructTag.Get, h]

/-- A field without a column tag is looked up under the empty string. -/
theorem Get_of_columnTag_none (f : StructField) (h : columnTag f = none) :
    f.Tag.Get TAG_PREFIX = "" := by
  simp only [columnTag] at h
  simp [StructTag.Get, h]

/-- A field whose key the map does not hold is passed over. -/
theorem unmarshalField_of_none (row : List String) (m : NamePos) (f : StructField)
    (h : m (f.Tag.Get TAG_PREFIX) = none) : unmarshalField row m f = .skip := by
  simp [unmarshalField, h]

/-- A field whose position is not in the row ends the call with the
index-out-of-range panic. -/
theorem unmarshalField_of_short (row : List String) (m : NamePos) (f : StructField) (pos : Nat)
    (h : m (f.Tag.Get TAG_PREFIX) = some pos) (hshort : row.length ≤ pos) :
    unmarshalField row m f = .stop (.panic (.indexOutOfRange pos row.length)) := by
  have : row[pos]? = none := List.getElem?_eq_none hshort
  simp [unmarshalField, h, this]

/-- Setting an exported field sets it. -/
theorem reflectSet_of_exported (f : StructField) (method : String) (v : Value)
    (h : f.IsExported = true) : reflectSet f method v = .set v := by
  simp [reflectSet, h]

/-- Setting an unexported field panics. -/
theorem reflectSet_of_unexported (f : StructField) (method : String) (v : Value)
    (h : f.IsExported = false) :
    reflectSet f method v = .stop (.panic (.unexportedField method)) := by
  simp [reflectSet, h]

/-- Setting a field sets it or panics. -/
theorem reflectSet_cases (f : StructField) (method : String) (v : Value) :
    reflectSet f method v = .set v ∨
      reflectSet f method v = .stop (.panic (.unexportedField method)) := by
  cases h : f.IsExported with
  | true => exact Or.inl (reflectSet_of_exported f method v h)
  | false => exact Or.inr (reflectSet_of_unexported f method v h)

/-- A field never ends the call with `nil`. -/
theorem unmarshalField_ne_stop_nil (row : List String) (m : NamePos) (f : StructField) :
    unmarshalField row m f ≠ .stop .nil := by
  unfold unmarshalField reflectSet
  repeat' split
  all_goals simp

/-- When no field ends the call, the loop returns `nil`. -/
theorem unmarshalOne.fill_nil_of_no_stop (row : List String) (m : NamePos) :
    ∀ (fs : List StructField) (vs : List Value),
      (∀ g ∈ fs, (unmarshalField row m g).isStop = false) →
      (unmarshalOne.fill row m fs vs).2 = .nil := by
  intro fs
  induction fs with
  | nil => intro vs _; simp [unmarshalOne.fill]
  | cons f fs ih =>
    intro vs h
    cases vs with
    | nil => simp [unmarshalOne.fill]
    | cons v vs =>
      have hf := h f (List.mem_cons_self _ _)
      have hrest := ih vs (fun g hg => h g (List.mem_cons_of_mem _ hg))
      rw [unmarshalOne.fill]
      cases hstep : unmarshalField row m f with
      | skip => simpa using hrest
      | set w => simpa using hrest
      | stop o => rw [hstep] at hf; simp [FieldStep.isStop] at hf

/-- When the loop returns `nil`, no field ended the call. -/
theorem unmarshalOne.fill_no_stop_of_nil (row : List String) (m : NamePos) :
    ∀ (fs : List StructField) (vs : List Value), vs.length = fs.length →
      (unmarshalOne.fill row m fs vs).2 = .nil →
      ∀ g ∈ fs, (unmarshalField row m g).isStop = false := by
  intro fs
  induction fs with
  | nil => intro vs _ _ g hg; cases hg
  | cons f fs ih =>
    intro vs hlen h g hg
    cases vs with
    | nil => simp at hlen
    | cons v vs =>
      have hlen' : vs.length = fs.length := by simpa using hlen
      rw [unmarshalOne.fill] at h
      cases hstep : unmarshalField row m f with
      | skip =>
        rw [hstep] at h
        rcases List.mem_cons.1 hg with rfl | hmem
        · rw [hstep]; rfl
        · exact ih vs hlen' (by simpa using h) g hmem
      | set w =>
        rw [hstep] at h
        rcases List.mem_cons.1 hg with rfl | hmem
        · rw [hstep]; rfl
        · exact ih vs hlen' (by simpa using h) g hmem
      | stop o =>
        rw [hstep] at h
        simp only at h
        subst h
        exact absurd hstep (unmarshalField_ne_stop_nil row m f)

/-- The loop ends as the first field that ends the call says. -/
theorem unmarshalOne.fill_first_stop (row : List String) (m : NamePos)
    (f : StructField) (fs2 : List StructField) (o : Outcome)
    (hf : unmarshalField row m f = .stop o) :
    ∀ (fs1 : List StructField) (vs : List Value), vs.length = (fs1 ++ f :: fs2).length →
      (∀ g ∈ fs1, (unmarshalField row m g).isStop = false) →
      (unmarshalOne.fill row m (fs1 ++ f :: fs2) vs).2 = o := by
  intro fs1
  induction fs1 with
  | nil =>
    intro vs hlen _
    cases vs with
    | nil => simp at hlen
    | cons v vs => simp [unmarshalOne.fill, hf]
  | cons g fs1 ih =>
    intro vs hlen h
    cases vs with
    | nil => simp at hlen
    | cons v vs =>
      have hlen' : vs.length = (fs1 ++ f :: fs2).length := by simpa using hlen
      have hg := h g (List.mem_cons_self _ _)
      have hrest := ih vs hlen' (fun x hx => h x (List.mem_cons_of_mem _ hx))
      rw [List.cons_append, unmarshalOne.fill]
      cases hstep : unmarshalField row m g with
      | skip => simpa using hrest
      | set w => simpa using hrest
      | stop o' => rw [hstep] at hg; simp [FieldStep.isStop] at hg

/-- The loop of `unmarshalOne` acts the same on two rows and two maps under
which every field does the same. -/
theorem unmarshalOne.fill_congr (row row' : List String) (m m' : NamePos) :
    ∀ (fs : List StructField) (vs : List Value),
      (∀ g ∈ fs, unmarshalField row' m' g = unmarshalField row m g) →
      unmarshalOne.fill row' m' fs vs = unmarshalOne.fill row m fs vs := by
  intro fs
  induction fs with
  | nil => intro vs _; simp [unmarshalOne.fill]
  | cons f fs ih =>
    intro vs h
    cases vs with
    | nil => simp [unmarshalOne.fill]
    | cons v vs =>
      rw [unmarshalOne.fill, unmarshalOne.fill, h f (List.mem_cons_self _ _),
        ih vs (fun g hg => h g (List.mem_cons_of_mem _ hg))]

/-- The destination only grows: the loop of `Unmarshal` on a destination is
the loop on the empty destination, after the initial content. -/
theorem Unmarshal.loop_dest (t : StructType) (m : NamePos) (rows : List (List String)) :
    ∀ D : List Record,
      Unmarshal.loop t m rows D
        = (D ++ (Unmarshal.loop t m rows []).1, (Unmarshal.loop t m rows []).2) := by
  induction rows with
  | nil => intro D; simp [Unmarshal.loop]
  | cons row rest ih =>
    intro D
    rw [Unmarshal.loop, Unmarshal.loop]
    rcases hu : unmarshalOne row m t (zeroRecord t) with ⟨newVal, o⟩
    cases o with
    | nil =>
      simp only
      rw [ih (D ++ [newVal]), ih ([] ++ [newVal])]
      simp
    | error e => simp
    | panic q => simp

/-- One round of the loop of `Unmarshal` on a row that decodes. -/
theorem Unmarshal.loop_cons_nil (t : StructType) (m : NamePos) (row : List String)
    (rest : List (List String)) (D : List Record)
    (h : (unmarshalOne row m t (zeroRecord t)).2 = .nil) :
    Unmarshal.loop t m (row :: rest) D
      = (D ++ (unmarshalOne row m t (zeroRecord t)).1 :: (Unmarshal.loop t m rest []).1,
         (Unmarshal.loop t m rest []).2) := by
  rcases hu : unmarshalOne row m t (zeroRecord t) with ⟨newVal, o⟩
  rw [hu] at h
  simp only at h
  subst h
  rw [Unmarshal.loop, hu]
  simp only
  rw [Unmarshal.loop_dest]
  simp

/-- One round of the loop of `Unmarshal` on a row that does not decode. -/
theorem Unmarshal.loop_cons_stop (t : StructType) (m : NamePos) (row : List String)
    (rest : List (List String)) (D : List Record)
    (h : (unmarshalOne row m t (zeroRecord t)).2 ≠ .nil) :
    Unmarshal.loop t m (row :: rest) D = (D, (unmarshalOne row m t (zeroRecord t)).2) := by
  rcases hu : unmarshalOne row m t (zeroRecord t) with ⟨newVal, o⟩
  rw [hu] at h
  rw [Unmarshal.loop, hu]
  cases o with
  | nil => exact absurd rfl h
  | error e => rfl
  | panic q => rfl

/-! ## `strconv` -/

/-- The digits `formatBits` writes: each below ten, at least one, no leading
zero unless the number is zero, and their value is the number. -/
theorem formatBits_digits : ∀ (fuel u : Nat), u ≤ fuel →
    ∃ ds : List Nat, formatBits fuel u = ds.map digitChar ∧ ds ≠ [] ∧ (∀ d ∈ ds, d < 10) ∧
      (ds.head? = some 0 → ds = [0]) ∧ Nat.ofDigits 10 ds.reverse = u := by
  intro fuel
  induction fuel with
  | zero =>
    intro u hu
    have hu0 : u = 0 := by omega
    subst hu0
    exact ⟨[0], by simp [formatBits], by simp, by simp, by simp, by simp [Nat.ofDigits]⟩
  | succ fuel ih =>
    intro u hu
    by_cases h10 : u < 10
    · refine ⟨[u], by simp [formatBits, h10], by simp, by simpa using h10, ?_, ?_⟩
      · intro h; simp at h; simp [h]
      · simp [Nat.ofDigits]
    · have hdiv : u / 10 ≤ fuel := by omega
      obtain ⟨ds, hfmt, hne, hlt, hhead, hval⟩ := ih (u / 10) hdiv
      refine ⟨ds ++ [u % 10], ?_, by simp, ?_, ?_, ?_⟩
      · simp [formatBits, h10, hfmt]
      · intro d hd
        rcases List.mem_append.1 hd with hd | hd
        · exact hlt d hd
        · simp at hd; omega
      · intro h
        exfalso
        cases ds with
        | nil => exact hne rfl
        | cons d ds' =>
          simp at h
          subst h
          have := hhead rfl
          rw [this] at hval
          simp [Nat.ofDigits] at hval
          omega
      · rw [List.reverse_append]
        simp only [List.reverse_cons, List.reverse_nil, List.nil_append, List.singleton_append]
        rw [Nat.ofDigits_cons, hval]
        omega

/-- The text `FormatInt` writes is the canonical decimal text. -/
theorem FormatInt_canonical (i : Int) : IsCanonicalDecimal i (FormatInt i) := by
  obtain ⟨ds, hfmt, hne, hlt, hhead, hval⟩ := formatBits_digits i.natAbs i.natAbs (le_refl _)
  refine ⟨ds, hne, hlt, hhead, hval, ?_⟩
  by_cases hneg : i < 0
  · simp [FormatInt, hneg, hfmt]
  · simp [FormatInt, hneg, hfmt]

/-- A digit character passes the digit test of `ParseUint`, stands for its
digit, and is not a sign. -/
theorem digitChar_props (d : Nat) (hd : d < 10) :
    isDecimalDigit (digitChar d) = true ∧ (digitChar d).toNat - '0'.toNat = d ∧
      digitChar d ≠ '+' ∧ digitChar d ≠ '-' := by
  interval_cases d <;> decide

/-- The loop of `ParseUint` reads a list of digits as the number they write
after the number read so far, as long as that stays below `2 ^ 64`. -/
theorem ParseUint.loop_digits : ∀ (ds : List Nat) (n : Nat), (∀ d ∈ ds, d < 10) →
    n * 10 ^ ds.length + Nat.ofDigits 10 ds.reverse < 2 ^ 64 →
    ParseUint.loop (ds.map digitChar) n
      = (n * 10 ^ ds.length + Nat.ofDigits 10 ds.reverse, none) := by
  intro ds
  induction ds with
  | nil => intro n _ _; simp [ParseUint.loop, Nat.ofDigits]
  | cons d ds ih =>
    intro n hlt hbound
    have hd : d < 10 := hlt d (List.mem_cons_self _ _)
    obtain ⟨h1, h2, -, -⟩ := digitChar_props d hd
    have hval : Nat.ofDigits 10 (d :: ds).reverse
        = Nat.ofDigits 10 ds.reverse + 10 ^ ds.length * d := by
      rw [List.reverse_cons, Nat.ofDigits_append]
      simp [Nat.ofDigits]
    rw [hval] at hbound ⊢
    have hpow : 0 < 10 ^ ds.length := pow_pos (by norm_num) _
    have hlen : (d :: ds).length = ds.length + 1 := rfl
    rw [hlen, pow_succ] at hbound ⊢
    have hn : (n * 10 + d) * 10 ^ ds.length
        = n * (10 ^ ds.length * 10) + 10 ^ ds.length * d := by ring
    have hsmall : n * 10 + d < 2 ^ 64 := by
      have : (n * 10 + d) * 1 ≤ (n * 10 + d) * 10 ^ ds.length :=
        Nat.mul_le_mul_left _ hpow
      omega
    have hih := ih (n * 10 + d) (fun x hx => hlt x (List.mem_cons_of_mem _ hx)) (by omega)
    rw [List.map_cons, ParseUint.loop, h1]
    simp only [if_true, h2]
    have hcut : ¬ (n ≥ (2 ^ 64 - 1) / 10 + 1) := by omega
    have hm1 : n * 10 % 2 ^ 64 = n * 10 := Nat.mod_eq_of_lt (by omega)
    have hm2 : (n * 10 + d) % 2 ^ 64 = n * 10 + d := Nat.mod_eq_of_lt hsmall
    rw [if_neg hcut, hm1, hm2]
    have hno : ¬ (n * 10 + d < n * 10 ∨ n * 10 + d > 2 ^ 64 - 1) := by omega
    rw [if_neg hno, hih]
    congr 1
    omega

/-- Round trip of an integer through `FormatInt` and `ParseInt`. -/
theorem ParseInt_FormatInt (i : Int) (hlo : minInt64 ≤ i) (hhi : i ≤ maxInt64) :
    ParseInt (FormatInt i) = .ok i := by
  obtain ⟨ds, hfmt, hne, hlt, -, hval⟩ := formatBits_digits i.natAbs i.natAbs (le_refl _)
  simp only [minInt64, maxInt64] at hlo hhi
  have hloop := ParseUint.loop_digits ds 0 hlt (by rw [hval]; omega)
  rw [hval] at hloop
  simp only [Nat.zero_mul, Nat.zero_add] at hloop
  clear hval
  cases ds with
  | nil => exact absurd rfl hne
  | cons d ds' =>
    have hd : d < 10 := hlt d (List.mem_cons_self _ _)
    obtain ⟨-, -, hplus, hminus⟩ := digitChar_props d hd
    have hpu : ParseUint (digitChar d :: ds'.map digitChar) = (i.natAbs, none) := by
      simpa [ParseUint] using hloop
    by_cases hneg : i < 0
    · have hdata : (FormatInt i).data = '-' :: digitChar d :: ds'.map digitChar := by
        simp [FormatInt, hneg, hfmt]
      have h1 : ¬ (i.natAbs > 2 ^ 63) := by omega
      have h2 : -((i.natAbs : Nat) : Int) = i := by omega
      rw [ParseInt, hdata]
      simp only [or_true, if_true, hpu]
      simp only [not_true_eq_false, false_and, if_false, true_and, if_neg h1, h2]
    · have hdata : (FormatInt i).data = digitChar d :: ds'.map digitChar := by
        simp [FormatInt, hneg, hfmt]
      have h1 : ¬ (i.natAbs ≥ 2 ^ 63) := by omega
      have h2 : ((i.natAbs : Nat) : Int) = i := by omega
      rw [ParseInt, hdata]
      simp only [hplus, hminus, or_self, if_false, hpu]
      simp only [not_false_eq_true, true_and, if_neg h1, false_and, if_false, h2]

/-- Round trip of a boolean through `FormatBool` and `ParseBool`. -/
theorem ParseBool_FormatBool (b : Bool) : ParseBool (FormatBool b) = .ok b := by
  cases b <;> decide

/-- Every error of `ParseInt` is a `NumError` of that function holding the
whole input. -/
theorem ParseInt_error (s : String) (e : GoError) (h : ParseInt s = .error e) :
    ∃ k, e = .NumError "ParseInt" s k := by
  unfold ParseInt at h
  split at h
  · exact ⟨.ErrSyntax, by cases h; rfl⟩
  · simp only at h
    split at h
    · exact ⟨.ErrSyntax, by cases h; rfl⟩
    · split at h
      · exact ⟨.ErrRange, by cases h; rfl⟩
      · split at h
        · exact ⟨.ErrRange, by cases h; rfl⟩
        · split at h <;> cases h

/-- The loop of `ParseUint` ends with an error on characters that are not
all decimal digits. -/
theorem ParseUint.loop_error_of_not_digit : ∀ (cs : List Char) (n : Nat),
    (∃ c ∈ cs, isDecimalDigit c = false) → (ParseUint.loop cs n).2 ≠ none := by
  intro cs
  induction cs with
  | nil => intro n h; obtain ⟨c, hc, -⟩ := h; cases hc
  | cons c cs ih =>
    intro n h
    rw [ParseUint.loop]
    by_cases hd : isDecimalDigit c = true
    · have hrest : ∃ x ∈ cs, isDecimalDigit x = false := by
        obtain ⟨x, hx, hxd⟩ := h
        rcases List.mem_cons.1 hx with rfl | hmem
        · rw [hd] at hxd; cases hxd
        · exact ⟨x, hmem, hxd⟩
      simp only [hd, if_true]
      split
      · simp
      · split
        · simp
        · exact ih _ hrest
    · simp [hd]

/-- With a range error `ParseUint` returns the greatest `uint64`. -/
theorem ParseUint_range_value (cs : List Char) (un : Nat)
    (h : ParseUint cs = (un, some .ErrRange)) : un = 2 ^ 64 - 1 := by
  have hloop : ∀ (xs : List Char) (n : Nat),
      (ParseUint.loop xs n).2 = some .ErrRange → (ParseUint.loop xs n).1 = 2 ^ 64 - 1 := by
    intro xs
    induction xs with
    | nil => intro n hn; simp [ParseUint.loop] at hn
    | cons x xs ih =>
      intro n hn
      rw [ParseUint.loop] at hn ⊢
      split
      · rename_i hd
        rw [if_pos hd] at hn
        simp only at hn ⊢
        split
        · rfl
        · rename_i hcut
          rw [if_neg hcut] at hn
          split
          · rfl
          · rename_i hov
            rw [if_neg hov] at hn
            exact ih _ hn
      · rename_i hd
        rw [if_neg hd] at hn
        simp at hn
  cases cs with
  | nil => simp [ParseUint] at h
  | cons c cs =>
    have h1 : (ParseUint.loop (c :: cs) 0).2 = some .ErrRange := by
      have := congrArg Prod.snd h
      simpa [ParseUint] using this
    have h2 := hloop (c :: cs) 0 h1
    have h3 := congrArg Prod.fst h
    simp only [ParseUint] at h3
    rw [← h3]
    exact h2

/-- A text `ParseInt` accepts is a base-10 signed integer text; so a cell
that is not one is rejected. -/
theorem ParseInt_ok_isDecimalText (s : String) (i : Int) (h : ParseInt s = .ok i) :
    IsDecimalText s := by
  unfold ParseInt at h
  split at h
  · cases h
  · rename_i c cs hdata
    have hrest : ∀ rest : List Char, (ParseUint rest).2 = none →
        rest ≠ [] ∧ ∀ x ∈ rest, isDecimalDigit x = true := by
      intro rest hr
      cases rest with
      | nil => simp [ParseUint] at hr
      | cons y ys =>
        refine ⟨by simp, ?_⟩
        intro x hx
        by_contra hxd
        have hxf : isDecimalDigit x = false := by simpa using hxd
        exact ParseUint.loop_error_of_not_digit (y :: ys) 0 ⟨x, hx, hxf⟩
          (by simpa [ParseUint] using hr)
    simp only at h
    have hnone : (ParseUint (if c = '+' ∨ c = '-' then cs else c :: cs)).2 = none := by
      rcases hp : ParseUint (if c = '+' ∨ c = '-' then cs else c :: cs) with ⟨un, err⟩
      rw [hp] at h
      cases err with
      | none => rfl
      | some k =>
        cases k with
        | ErrSyntax => simp at h
        | ErrRange =>
          exfalso
          have hun : un = 2 ^ 64 - 1 := ParseUint_range_value _ un hp
          simp only at h
          subst hun
          split at h
          · cases h
          · split at h
            · cases h
            · rename_i h1 h2
              by_cases hneg : c = '-'
              · exact h2 ⟨hneg, by norm_num⟩
              · exact h1 ⟨hneg, by norm_num⟩
    obtain ⟨hne, hdig⟩ := hrest _ hnone
    by_cases hsign : c = '+' ∨ c = '-'
    · rw [if_pos hsign] at hne hdig
      refine ⟨[c], cs, by simp [hdata], ?_, hne, hdig⟩
      rcases hsign with rfl | rfl <;> simp
    · rw [if_neg hsign] at hne hdig
      exact ⟨[], c :: cs, by simp [hdata], Or.inl rfl, hne, hdig⟩

/-- A cell that is not a base-10 signed integer text is rejected by
`ParseInt`, with a `NumError` holding the cell. -/
theorem ParseInt_error_of_not_decimal (s : String) (h : ¬ IsDecimalText s) :
    ∃ k, ParseInt s = .error (.NumError "ParseInt" s k) := by
  cases hp : ParseInt s with
  | ok i => exact absurd (ParseInt_ok_isDecimalText s i hp) h
  | error e =>
    obtain ⟨k, hk⟩ := ParseInt_error s e hp
    exact ⟨k, by rw [hk]⟩

/-- Every error of `ParseBool` is a syntax `NumError` of that function
holding the whole input. -/
theorem ParseBool_error (s : String) (e : GoError) (h : ParseBool s = .error e) :
    e = .NumError "ParseBool" s .ErrSyntax := by
  unfold ParseBool at h
  split at h
  · cases h
  · split at h
    · cases h
    · cases h; rfl

/-! ## `Marshal` -/

/-- The header `marshalHeader` builds is the list of the column tags. -/
theorem marshalHeader_eq_boundTags (t : StructType) : marshalHeader t = boundTags t := by
  induction t with
  | nil => rfl
  | cons f fs ih =>
    rw [marshalHeader, boundTags, List.filterMap_cons]
    cases h : StructTag.Lookup f.Tag TAG_PREFIX with
    | none => simp [columnTag, h, ih, boundTags]
    | some tag => simp [columnTag, h, ih, boundTags]

/-- On a struct of the type whose bound fields are of the three kinds,
`marshalOne` succeeds, with the external text of each bound field's value
in declaration order. -/
theorem marshalOne_supported : ∀ (t : StructType) (r : Record),
    SupportedKinds t → Record.HasType r t →
    ∃ row, marshalOne t r = .ok row ∧ List.Forall₂ IsExternalText (boundValues t r) row := by
  intro t
  induction t with
  | nil =>
    intro r _ hr
    cases r with
    | nil => exact ⟨[], rfl, by simp [boundValues]⟩
    | cons v vs => exact absurd hr (by simp [Record.HasType])
  | cons f fs ih =>
    intro r hs hr
    cases r with
    | nil => exact absurd hr (by simp [Record.HasType])
    | cons v vs =>
      have hv : v.HasType f := hr.1
      have hs' : SupportedKinds fs := fun g hg => hs g (List.mem_cons_of_mem _ hg)
      obtain ⟨row, hrow, hall⟩ := ih vs hs' hr.2
      cases htag : StructTag.Lookup f.Tag TAG_PREFIX with
      | none =>
        refine ⟨row, ?_, ?_⟩
        · simp [marshalOne, htag, hrow]
        · simpa [boundValues, columnTag, htag] using hall
      | some tag =>
        have hk := hs f (List.mem_cons_self _ _) (by simp [columnTag, htag])
        cases v with
        | str x =>
          refine ⟨x :: row, ?_, ?_⟩
          · simp [marshalOne, htag, hrow]
          · simpa [boundValues, columnTag, htag, IsExternalText] using hall
        | int i =>
          refine ⟨FormatInt i :: row, ?_, ?_⟩
          · simp [marshalOne, htag, hrow]
          · simpa [boundValues, columnTag, htag, IsExternalText] using
              ⟨FormatInt_canonical i, hall⟩
        | bool b =>
          refine ⟨FormatBool b :: row, ?_, ?_⟩
          · simp [marshalOne, htag, hrow]
          · simpa [boundValues, columnTag, htag, IsExternalText, FormatBool] using hall
        | other k c =>
          exfalso
          have h1 : Value.Kind (.other k c) = f.Kind := hv.1
          rw [Value.Kind] at h1
          rcases hk with hk | hk | hk <;> rw [hk] at h1 <;> cases h1

/-- The loop of `Marshal` on structs of a supported type: one row per
struct, in order. -/
theorem Marshal.loop_supported (t : StructType) (hs : SupportedKinds t) :
    ∀ R : List Record, (∀ r ∈ R, Record.HasType r t) →
    ∃ rows, Marshal.loop t R = .ok rows ∧
      List.Forall₂ (fun r row => List.Forall₂ IsExternalText (boundValues t r) row) R rows := by
  intro R
  induction R with
  | nil => intro _; exact ⟨[], rfl, List.Forall₂.nil⟩
  | cons r rest ih =>
    intro hR
    obtain ⟨row, hrow, hcells⟩ := marshalOne_supported t r hs (hR r (List.mem_cons_self _ _))
    obtain ⟨rows, hrows, hall⟩ := ih (fun x hx => hR x (List.mem_cons_of_mem _ hx))
    exact ⟨row :: rows, by simp [Marshal.loop, hrow, hrows], List.Forall₂.cons hcells hall⟩

/-- C10 (encode output). For a struct type whose bound fields are all of
kind string, int or bool and a slice of `n` structs of it, `Marshal`
succeeds and returns the header followed by exactly `n` rows; the row of each
struct, in the order of the slice, holds for its bound fields in declaration
order the string itself, the canonical decimal text of the integer, or the
literal true or false. -/
theorem Marshal_output (t : StructType) (R : List Record)
    (hs : SupportedKinds t) (hR : ∀ r ∈ R, Record.HasType r t) :
    ∃ rows, Marshal t R = .ok (marshalHeader t :: rows) ∧
      (marshalHeader t :: rows).length = R.length + 1 ∧
      List.Forall₂ (fun r row => List.Forall₂ IsExternalText (boundValues t r) row) R rows := by
  obtain ⟨rows, hrows, hall⟩ := Marshal.loop_supported t hs R hR
  refine ⟨rows, by simp [Marshal, hrows], ?_, hall⟩
  simp [hall.length_eq]

/-- C9, as stated, fails: for a struct type with a bound field of kind
float64 and a slice of one struct, `Marshal` returns an error and no rows,
so there is no row 0; for the empty slice of the same type it returns the
header, so whether there is a header depends on the number of structs. -/
theorem Marshal_no_header_on_error :
    Marshal Scored [[.other .Float64 7]]
        = .error (.Errorf "cannot handle field of kind %v" (.Other .Float64)) ∧
      (¬ ∃ rows, Marshal Scored [[.other .Float64 7]] = .ok rows) ∧
      Marshal Scored [] = .ok [["score"]] := by
  have h : Marshal Scored [[.other .Float64 7]]
      = .error (.Errorf "cannot handle field of kind %v" (.Other .Float64)) := by decide
  refine ⟨h, ?_, by decide⟩
  rintro ⟨rows, hrows⟩
  rw [h] at hrows
  cases hrows

/-- C9 (header order), amended. Whenever `Marshal` returns rows, the first
of them is the list of the column tags of the bound fields in declaration
order, whatever the structs of the slice and however many they are. It
returns rows for the empty slice, whatever the struct type, and for every
slice of structs of a type whose bound fields are of kind string, int or
bool. -/
theorem Marshal_header_order (t : StructType) :
    (∀ (R : List Record) (rows : List (List String)),
        Marshal t R = .ok rows → rows.head? = some (boundTags t)) ∧
      Marshal t [] = .ok [boundTags t] ∧
      (SupportedKinds t → ∀ R : List Record, (∀ r ∈ R, Record.HasType r t) →
        ∃ body, Marshal t R = .ok (boundTags t :: body)) := by
  refine ⟨?_, ?_, ?_⟩
  · intro R rows h
    rw [Marshal] at h
    cases hl : Marshal.loop t R with
    | error e => rw [hl] at h; cases h
    | ok out =>
      rw [hl] at h
      simp only [Except.ok.injEq] at h
      rw [← h, marshalHeader_eq_boundTags]
      rfl
  · simp [Marshal, Marshal.loop, marshalHeader_eq_boundTags]
  · intro hs R hR
    obtain ⟨body, hbody, -⟩ := Marshal.loop_supported t hs R hR
    exact ⟨body, by simp [Marshal, hbody, marshalHeader_eq_boundTags]⟩

/-! ## Failing rows -/

/-- C4, as stated, fails: the data row with the single cell 42 under the
three column header of `MyData` makes `Unmarshal` panic with the run-time
error "index out of range 1 with length 1"; no error value is returned. -/
theorem Unmarshal_short_row_panics :
    Unmarshal MyData [["name", "age", "has_pet"], ["42"]] []
        = ([], .panic (.indexOutOfRange 1 1)) ∧
      ∀ e, (Unmarshal MyData [["name", "age", "has_pet"], ["42"]] []).2 ≠ .error e := by
  have h : Unmarshal MyData [["name", "age", "has_pet"], ["42"]] []
      = ([], .panic (.indexOutOfRange 1 1)) := by decide
  refine ⟨h, ?_⟩
  intro e
  rw [h]
  simp

/-- C4 (row too short), amended. When a data row has no cell at the header
position of a bound field's column tag, `Unmarshal` does not succeed; and
when that cell is the first thing to fail (every earlier row decodes, and in
this row no field declared before ends the call) the call ends with the
index-out-of-range panic for that position and the length of the row, the
destination holding the structs of the earlier rows. -/
theorem Unmarshal_row_too_short (fs1 : List StructField) (f : StructField)
    (fs2 : List StructField) (header : List String) (pre : List (List String))
    (row : List String) (post : List (List String)) (D : List Record) (tag : String) (pos : Nat)
    (htag : columnTag f = some tag) (hpos : Unmarshal.namePos header tag = some pos)
    (hshort : row.length ≤ pos) :
    (Unmarshal (fs1 ++ f :: fs2) (header :: (pre ++ row :: post)) D).2 ≠ .nil ∧
    ((∀ r ∈ pre, (unmarshalOne r (Unmarshal.namePos header) (fs1 ++ f :: fs2)
          (zeroRecord (fs1 ++ f :: fs2))).2 = .nil) →
      (∀ g ∈ fs1, (unmarshalField row (Unmarshal.namePos header) g).isStop = false) →
      Unmarshal (fs1 ++ f :: fs2) (header :: (pre ++ row :: post)) D
        = (D ++ pre.map (fun r => (unmarshalOne r (Unmarshal.namePos header) (fs1 ++ f :: fs2)
              (zeroRecord (fs1 ++ f :: fs2))).1),
           .panic (.indexOutOfRange pos row.length))) := by
  have hkey := Get_of_columnTag f tag htag
  have hstop := unmarshalField_of_short row (Unmarshal.namePos header) f pos
    (by rw [hkey]; exact hpos) hshort
  constructor
  · intro hnil
    rw [Unmarshal] at hnil
    have hall := Unmarshal.loop_nil_all _ _ _ D hnil row (by simp)
    rw [unmarshalOne_eq_fill] at hall
    have := unmarshalOne.fill_no_stop_of_nil row _ _ _ (by simp [zeroRecord]) hall f (by simp)
    rw [hstop] at this
    simp [FieldStep.isStop] at this
  · intro hpre hfs1
    rw [Unmarshal]
    refine Unmarshal.loop_first_failure _ _ pre row post _ hpre ?_ (by simp) D
    rw [unmarshalOne_eq_fill]
    exact unmarshalOne.fill_first_stop row _ f fs2 _ hstop fs1 _ (by simp [zeroRecord]) hfs1

/-- C4 at the row of the claim: `MyData`, no earlier row, the field `Age`
whose column is at position 1 of the header, a row of length 1. -/
theorem Unmarshal_row_too_short_witness :
    (Unmarshal MyData [["name", "age", "has_pet"], ["42"], ["Jon", "100", "true"]] []).2 ≠ .nil ∧
    Unmarshal MyData [["name", "age", "has_pet"], ["42"], ["Jon", "100", "true"]] []
      = ([], .panic (.indexOutOfRange 1 1)) := by
  have h := Unmarshal_row_too_short
    [{ Name := "Name", Kind := .String, Tag := [("csv", "name")] }]
    { Name := "Age", Kind := .Int, Tag := [("csv", "age")] }
    [{ Name := "HasPet", Kind := .Bool, Tag := [("csv", "has_pet")] }]
    ["name", "age", "has_pet"] [] ["42"] [["Jon", "100", "true"]] [] "age" 1
    (by decide) (by decide) (by decide)
  exact ⟨h.1, h.2 (by decide) (by decide)⟩

/-- C5, as stated, fails: for the cell notanumber in the age column the
error `Unmarshal` returns is the `NumError` of `ParseInt` with the raw text,
and it is the same error value when the field is called `Years` instead of
`Age`: no reading of the error value gives the field back. -/
theorem Unmarshal_error_has_no_field :
    Unmarshal MyData [["name", "age", "has_pet"], ["Jon", "notanumber", "true"]] []
        = ([], .error (.NumError "ParseInt" "notanumber" .ErrSyntax)) ∧
      Unmarshal MyDataRenamed [["name", "age", "has_pet"], ["Jon", "notanumber", "true"]] []
        = ([], .error (.NumError "ParseInt" "notanumber" .ErrSyntax)) ∧
      ¬ ∃ fieldOf : Outcome → String,
          fieldOf (Unmarshal MyData
            [["name", "age", "has_pet"], ["Jon", "notanumber", "true"]] []).2 = "Age" ∧
          fieldOf (Unmarshal MyDataRenamed
            [["name", "age", "has_pet"], ["Jon", "notanumber", "true"]] []).2 = "Years" := by
  have h1 : Unmarshal MyData [["name", "age", "has_pet"], ["Jon", "notanumber", "true"]] []
      = ([], .error (.NumError "ParseInt" "notanumber" .ErrSyntax)) := by decide
  have h2 : Unmarshal MyDataRenamed
      [["name", "age", "has_pet"], ["Jon", "notanumber", "true"]] []
      = ([], .error (.NumError "ParseInt" "notanumber" .ErrSyntax)) := by decide
  refine ⟨h1, h2, ?_⟩
  rintro ⟨fieldOf, ha, hb⟩
  rw [h1] at ha
  rw [h2] at hb
  rw [ha] at hb
  exact absurd hb (by decide)

/-- C5 (malformed value), amended. When the cell of a bound field of kind
int is rejected by `ParseInt`, or that of a bound field of kind bool by
`ParseBool`, and it is the first thing to fail (every earlier row decodes,
and in this row no field declared before ends the call), `Unmarshal` returns
the parser's own error: a `NumError` that holds the name of the parsing
function and the raw text of the cell, and nothing of the field; the
destination holds the structs of the earlier rows. -/
theorem Unmarshal_malformed_value (fs1 : List StructField) (f : StructField)
    (fs2 : List StructField) (header : List String) (pre : List (List String))
    (row : List String) (post : List (List String)) (D : List Record) (tag : String) (pos : Nat)
    (val : String) (e : GoError)
    (htag : columnTag f = some tag) (hpos : Unmarshal.namePos header tag = some pos)
    (hval : row[pos]? = some val)
    (hbad : (f.Kind = .Int ∧ ParseInt val = .error e) ∨
      (f.Kind = .Bool ∧ ParseBool val = .error e))
    (hpre : ∀ r ∈ pre, (unmarshalOne r (Unmarshal.namePos header) (fs1 ++ f :: fs2)
          (zeroRecord (fs1 ++ f :: fs2))).2 = .nil)
    (hfs1 : ∀ g ∈ fs1, (unmarshalField row (Unmarshal.namePos header) g).isStop = false) :
    Unmarshal (fs1 ++ f :: fs2) (header :: (pre ++ row :: post)) D
        = (D ++ pre.map (fun r => (unmarshalOne r (Unmarshal.namePos header) (fs1 ++ f :: fs2)
              (zeroRecord (fs1 ++ f :: fs2))).1),
           .error e) ∧
      ∃ k, e = .NumError (if f.Kind = .Int then "ParseInt" else "ParseBool") val k := by
  have hkey := Get_of_columnTag f tag htag
  have hstop : unmarshalField row (Unmarshal.namePos header) f = .stop (.error e) := by
    rcases hbad with ⟨hk, hp⟩ | ⟨hk, hp⟩
    · simp [unmarshalField, hkey, hpos, hval, hk, hp]
    · simp [unmarshalField, hkey, hpos, hval, hk, hp]
  constructor
  · rw [Unmarshal]
    refine Unmarshal.loop_first_failure _ _ pre row post _ hpre ?_ (by simp) D
    rw [unmarshalOne_eq_fill]
    exact unmarshalOne.fill_first_stop row _ f fs2 _ hstop fs1 _ (by simp [zeroRecord]) hfs1
  · rcases hbad with ⟨hk, hp⟩ | ⟨hk, hp⟩
    · obtain ⟨k, hk'⟩ := ParseInt_error val e hp
      exact ⟨k, by simp [hk, hk']⟩
    · exact ⟨.ErrSyntax, by simp [hk, ParseBool_error val e hp]⟩

/-- C5 at the cell of the claim: `MyData`, one earlier row that decodes, the
cell notanumber in the age column. -/
theorem Unmarshal_malformed_value_witness :
    Unmarshal MyData
        [["name", "age", "has_pet"], ["Fred", "42", "false"], ["Jon", "notanumber", "true"]] []
        = ([[.str "Fred", .int 42, .bool false]],
           .error (.NumError "ParseInt" "notanumber" .ErrSyntax)) ∧
      ∃ k, GoError.NumError "ParseInt" "notanumber" .ErrSyntax
        = .NumError "ParseInt" "notanumber" k :=
  Unmarshal_malformed_value
    [{ Name := "Name", Kind := .String, Tag := [("csv", "name")] }]
    { Name := "Age", Kind := .Int, Tag := [("csv", "age")] }
    [{ Name := "HasPet", Kind := .Bool, Tag := [("csv", "has_pet")] }]
    ["name", "age", "has_pet"] [["Fred", "42", "false"]] ["Jon", "notanumber", "true"] [] []
    "age" 1 "notanumber" (.NumError "ParseInt" "notanumber" .ErrSyntax)
    (by decide) (by decide) (by decide) (Or.inl (by decide)) (by decide) (by decide)

/-- C6 at a grid whose second data row has a malformed age: the struct of
the first row stays in the destination, after the initial content. -/
theorem Unmarshal_no_rollback_witness :
    Unmarshal MyData
        [["name", "age", "has_pet"], ["Jon", "100", "true"], ["Fred", "x", "false"],
          ["Martha", "37", "true"]]
        [[.str "Ann", .int 1, .bool false]]
      = ([[.str "Ann", .int 1, .bool false], [.str "Jon", .int 100, .bool true]],
         .error (.NumError "ParseInt" "x" .ErrSyntax)) :=
  Unmarshal_no_rollback MyData ["name", "age", "has_pet"] [["Jon", "100", "true"]]
    ["Fred", "x", "false"] [["Martha", "37", "true"]] [[.str "Ann", .int 1, .bool false]]
    (.error (.NumError "ParseInt" "x" .ErrSyntax)) (by decide) (by decide) (by decide)

/-- C7 at the grid of `main.go` and a destination that already holds a
struct. -/
theorem Unmarshal_appends_witness :
    ∃ header rows,
      [["name", "age", "has_pet"], ["Jon", "100", "true"], ["Fred", "42", "false"]]
        = header :: rows ∧
      (Unmarshal MyData
          [["name", "age", "has_pet"], ["Jon", "100", "true"], ["Fred", "42", "false"]]
          [[.str "Ann", .int 1, .bool false]]).1
        = [[.str "Ann", .int 1, .bool false]] ++ rows.map
            (fun row => (unmarshalOne row (Unmarshal.namePos header) MyData
              (zeroRecord MyData)).1) ∧
      (Unmarshal MyData
          [["name", "age", "has_pet"], ["Jon", "100", "true"], ["Fred", "42", "false"]]
          [[.str "Ann", .int 1, .bool false]]).1.length
        = [[Value.str "Ann", .int 1, .bool false]].length
          + ([["name", "age", "has_pet"], ["Jon", "100", "true"],
              ["Fred", "42", "false"]].length - 1) ∧
      (Unmarshal MyData
          [["name", "age", "has_pet"], ["Jon", "100", "true"], ["Fred", "42", "false"]]
          [[.str "Ann", .int 1, .bool false]]).1.take
            [[Value.str "Ann", .int 1, .bool false]].length
        = [[.str "Ann", .int 1, .bool false]] :=
  Unmarshal_appends MyData
    [["name", "age", "has_pet"], ["Jon", "100", "true"], ["Fred", "42", "false"]]
    [[.str "Ann", .int 1, .bool false]] (by decide)

/-- C10 at the two structs of the worked example. -/
theorem Marshal_output_witness :
    ∃ rows, Marshal MyData [[.str "Jon", .int 100, .bool true], [.str "Fred", .int 42, .bool false]]
        = .ok (marshalHeader MyData :: rows) ∧
      (marshalHeader MyData :: rows).length
        = [[Value.str "Jon", .int 100, .bool true], [.str "Fred", .int 42, .bool false]].length
          + 1 ∧
      List.Forall₂ (fun r row => List.Forall₂ IsExternalText (boundValues MyData r) row)
        [[.str "Jon", .int 100, .bool true], [.str "Fred", .int 42, .bool false]] rows :=
  Marshal_output MyData [[.str "Jon", .int 100, .bool true], [.str "Fred", .int 42, .bool false]]
    (by decide) (by decide)

/-! ## Column order -/

/-- Reading every position of a list gives the list back. -/
theorem map_getD_range (l : List String) :
    (List.range l.length).map (fun i => l.getD i "") = l := by
  apply List.ext_getElem?
  intro n
  by_cases hn : n < l.length
  · simp [List.getElem?_range, hn, List.getD_eq_getElem?_getD]
  · have h1 : l[n]? = none := List.getElem?_eq_none (by omega)
    have h2 : l.length ≤ n := by omega
    simp [h1, h2]

/-- A rearranged header holds the same names as often. -/
theorem permuteRow_perm (p : List Nat) (header : List String)
    (hp : p.Perm (List.range header.length)) : (permuteRow p header).Perm header := by
  have h := List.Perm.map (fun i => header.getD i "") hp
  rw [map_getD_range] at h
  exact h

/-- Under a header in which the field's key occurs at most once, a field
does the same on a row and on the rearranged row under the rearranged
header. -/
theorem unmarshalField_permuteRow (p : List Nat) (header row : List String) (f : StructField)
    (hp : p.Perm (List.range header.length)) (hrow : row.length = header.length)
    (hc : header.count (f.Tag.Get TAG_PREFIX) ≤ 1) :
    unmarshalField (permuteRow p row) (Unmarshal.namePos (permuteRow p header)) f
      = unmarshalField row (Unmarshal.namePos header) f := by
  have hperm := permuteRow_perm p header hp
  cases h : lastIndexOf header (f.Tag.Get TAG_PREFIX) with
  | none =>
    have hnot := (lastIndexOf_eq_none _ _).1 h
    have hnot' : f.Tag.Get TAG_PREFIX ∉ permuteRow p header :=
      fun hm => hnot (hperm.mem_iff.1 hm)
    have h' := (lastIndexOf_eq_none _ _).2 hnot'
    simp [unmarshalField, Unmarshal.namePos_eq, h, h']
  | some j =>
    obtain ⟨hj, -⟩ := lastIndexOf_eq_some _ _ j h
    have hmem : f.Tag.Get TAG_PREFIX ∈ permuteRow p header :=
      hperm.mem_iff.2 (List.getElem?_mem hj)
    cases h' : lastIndexOf (permuteRow p header) (f.Tag.Get TAG_PREFIX) with
    | none => exact absurd hmem ((lastIndexOf_eq_none _ _).1 h')
    | some j' =>
      obtain ⟨hj', -⟩ := lastIndexOf_eq_some _ _ j' h'
      -- the position the rearrangement names at `j'` is `j`
      simp only [permuteRow, List.getElem?_map] at hj'
      cases hpj : p[j']? with
      | none => rw [hpj] at hj'; simp at hj'
      | some i =>
        rw [hpj] at hj'
        simp only [Option.map_some', Option.some.injEq] at hj'
        have hi : i < header.length := by
          have := hp.mem_iff.1 (List.getElem?_mem hpj)
          simpa using this
        have hi' : header[i]? = some (f.Tag.Get TAG_PREFIX) := by
          rw [← hj', List.getD_eq_getElem?_getD]
          rw [List.getElem?_eq_getElem hi]
          simp
        have hij : i = j := by
          rcases Nat.lt_trichotomy i j with hlt | heq | hgt
          · have := count_ge_two_of_two_positions header _ i j hlt hi' hj
            omega
          · exact heq
          · have := count_ge_two_of_two_positions header _ j i hgt hj hi'
            omega
        subst hij
        have hcell : (permuteRow p row)[j']? = row[i]? := by
          simp only [permuteRow, List.getElem?_map, hpj, Option.map_some']
          rw [List.getD_eq_getElem?_getD, List.getElem?_eq_getElem (by omega)]
          simp
        obtain ⟨val, hri⟩ : ∃ val, row[i]? = some val :=
          ⟨_, List.getElem?_eq_getElem (by omega)⟩
        simp only [unmarshalField, Unmarshal.namePos_eq, h, h', hcell, hri]

/-- C3, as stated, fails: under the header with the column x twice, the
field reads the last of the two cells, so exchanging the two columns in the
header and in the row changes the struct that is appended. -/
theorem Unmarshal_depends_on_order_of_equal_names :
    Unmarshal [{ Name := "First", Kind := .String, Tag := [("csv", "x")] }]
        [["x", "x"], ["1", "2"]] [] = ([[.str "2"]], .nil) ∧
      Unmarshal [{ Name := "First", Kind := .String, Tag := [("csv", "x")] }]
        [permuteRow [1, 0] ["x", "x"], permuteRow [1, 0] ["1", "2"]] [] = ([[.str "1"]], .nil) ∧
      [1, 0].Perm (List.range ["x", "x"].length) := by
  decide

/-- C3 (column independence), amended. For a header in which no name the
struct type looks a field up under occurs more than once, data rows as long
as the header, and a rearrangement of the column positions, `Unmarshal` on
the rearranged grid (header and every data row) ends the same way and leaves
the same destination as on the grid itself. -/
theorem Unmarshal_column_independence (t : StructType) (header : List String)
    (rows : List (List String)) (p : List Nat) (D : List Record)
    (hp : p.Perm (List.range header.length))
    (hrows : ∀ row ∈ rows, row.length = header.length)
    (hc : ∀ f ∈ t, header.count (f.Tag.Get TAG_PREFIX) ≤ 1) :
    Unmarshal t (permuteRow p header :: rows.map (permuteRow p)) D
      = Unmarshal t (header :: rows) D := by
  rw [Unmarshal, Unmarshal]
  revert D
  induction rows with
  | nil => intro D; simp [Unmarshal.loop]
  | cons row rest ih =>
    intro D
    have hone : unmarshalOne (permuteRow p row) (Unmarshal.namePos (permuteRow p header)) t
        (zeroRecord t) = unmarshalOne row (Unmarshal.namePos header) t (zeroRecord t) := by
      rw [unmarshalOne_eq_fill, unmarshalOne_eq_fill]
      exact unmarshalOne.fill_congr _ _ _ _ t _ (fun g hg =>
        unmarshalField_permuteRow p header row g hp (hrows row (List.mem_cons_self _ _))
          (hc g hg))
    have hrest := ih (fun r hr => hrows r (List.mem_cons_of_mem _ hr))
    rw [List.map_cons, Unmarshal.loop, Unmarshal.loop, hone]
    rcases unmarshalOne row (Unmarshal.namePos header) t (zeroRecord t) with ⟨newVal, o⟩
    cases o with
    | nil => exact hrest _
    | error e => rfl
    | panic q => rfl

/-- C3 at the grid of `main.go`, with the columns in the order has_pet,
name, age. -/
theorem Unmarshal_column_independence_witness :
    Unmarshal MyData
        (permuteRow [2, 0, 1] ["name", "age", "has_pet"] ::
          [["Jon", "100", "true"], ["Fred", "42", "false"]].map (permuteRow [2, 0, 1])) []
      = Unmarshal MyData
          (["name", "age", "has_pet"] :: [["Jon", "100", "true"], ["Fred", "42", "false"]]) [] :=
  Unmarshal_column_independence MyData ["name", "age", "has_pet"]
    [["Jon", "100", "true"], ["Fred", "42", "false"]] [2, 0, 1] []
    (by decide) (by decide) (by decide)

/-! ## Fields the header has no column for -/

/-- Erasing the element that follows a list of known length. -/
theorem eraseIdx_append_cons (vs1 : List Value) (z : Value) (vs2 : List Value) :
    (vs1 ++ z :: vs2).eraseIdx vs1.length = vs1 ++ vs2 := by
  induction vs1 with
  | nil => rfl
  | cons v vs1 ih => simp [List.eraseIdx, ih]

/-- A field that is passed over is as good as absent from the struct type:
the loop of `unmarshalOne` ends the same way with and without it, fills the
other fields the same way, and leaves the value of that field as it was. -/
theorem unmarshalOne.fill_skipped_field (row : List String) (m : NamePos) (f : StructField)
    (fs2 : List StructField) (hskip : unmarshalField row m f = .skip) :
    ∀ (fs1 : List StructField) (vs1 : List Value), vs1.length = fs1.length →
      ∀ (z : Value) (vs2 : List Value),
        (unmarshalOne.fill row m (fs1 ++ f :: fs2) (vs1 ++ z :: vs2)).2
            = (unmarshalOne.fill row m (fs1 ++ fs2) (vs1 ++ vs2)).2 ∧
          (unmarshalOne.fill row m (fs1 ++ f :: fs2) (vs1 ++ z :: vs2)).1.eraseIdx fs1.length
            = (unmarshalOne.fill row m (fs1 ++ fs2) (vs1 ++ vs2)).1 ∧
          (unmarshalOne.fill row m (fs1 ++ f :: fs2) (vs1 ++ z :: vs2)).1[fs1.length]?
            = some z := by
  intro fs1
  induction fs1 with
  | nil =>
    intro vs1 hlen z vs2
    cases vs1 with
    | cons v vs1 => simp at hlen
    | nil => simp [unmarshalOne.fill, hskip]
  | cons g fs1 ih =>
    intro vs1 hlen z vs2
    cases vs1 with
    | nil => simp at hlen
    | cons v vs1 =>
      have hlen' : vs1.length = fs1.length := by simpa using hlen
      obtain ⟨h1, h2, h3⟩ := ih vs1 hlen' z vs2
      simp only [List.cons_append, unmarshalOne.fill, List.length_cons]
      cases hstep : unmarshalField row m g with
      | skip => simp [h1, h2, h3]
      | set w => simp [h1, h2, h3]
      | stop o =>
        have he := eraseIdx_append_cons vs1 z vs2
        have hg : (vs1 ++ z :: vs2)[vs1.length]? = some z := by
          rw [List.getElem?_append_right (le_refl _)]
          simp
        refine ⟨rfl, ?_, ?_⟩
        · show (v :: (vs1 ++ z :: vs2)).eraseIdx (fs1.length + 1) = v :: (vs1 ++ vs2)
          rw [List.eraseIdx_cons_succ, ← hlen', he]
        · show (v :: (vs1 ++ z :: vs2))[fs1.length + 1]? = some z
          rw [List.getElem?_cons_succ, ← hlen']
          exact hg

/-- The zero struct of a type with one more field. -/
theorem zeroRecord_insert (fs1 : List StructField) (f : StructField) (fs2 : List StructField) :
    zeroRecord (fs1 ++ f :: fs2) = zeroRecord fs1 ++ zeroValue f.Kind :: zeroRecord fs2 ∧
      zeroRecord (fs1 ++ fs2) = zeroRecord fs1 ++ zeroRecord fs2 ∧
      (zeroRecord fs1).length = fs1.length := by
  simp [zeroRecord]

/-- A field that is passed over in every row is as good as absent from the
struct type for the loop of `Unmarshal` into the empty destination: the
loop ends the same way, with the same structs but for the zero value of that
field. -/
theorem Unmarshal.loop_skipped_field (m : NamePos) (fs1 : List StructField) (f : StructField)
    (fs2 : List StructField) (rows : List (List String))
    (hskip : ∀ row ∈ rows, unmarshalField row m f = .skip) :
    (Unmarshal.loop (fs1 ++ f :: fs2) m rows []).2 = (Unmarshal.loop (fs1 ++ fs2) m rows []).2 ∧
      (Unmarshal.loop (fs1 ++ f :: fs2) m rows []).1.map (fun r => r.eraseIdx fs1.length)
        = (Unmarshal.loop (fs1 ++ fs2) m rows []).1 ∧
      ∀ r ∈ (Unmarshal.loop (fs1 ++ f :: fs2) m rows []).1,
        r[fs1.length]? = some (zeroValue f.Kind) := by
  induction rows with
  | nil => simp [Unmarshal.loop]
  | cons row rest ih =>
    obtain ⟨ih1, ih2, ih3⟩ := ih (fun r hr => hskip r (List.mem_cons_of_mem _ hr))
    obtain ⟨hz1, hz2, hz3⟩ := zeroRecord_insert fs1 f fs2
    obtain ⟨h1, h2, h3⟩ := unmarshalOne.fill_skipped_field row m f fs2
      (hskip row (List.mem_cons_self _ _)) fs1 (zeroRecord fs1) hz3 (zeroValue f.Kind)
      (zeroRecord fs2)
    rw [← hz1] at h1 h2 h3
    rw [← hz2] at h1 h2
    rw [← unmarshalOne_eq_fill] at h1 h2 h3
    rw [← unmarshalOne_eq_fill] at h1 h2
    by_cases hnil : (unmarshalOne row m (fs1 ++ f :: fs2) (zeroRecord (fs1 ++ f :: fs2))).2
        = .nil
    · have hnil' : (unmarshalOne row m (fs1 ++ fs2) (zeroRecord (fs1 ++ fs2))).2 = .nil := by
        rw [← h1]; exact hnil
      rw [Unmarshal.loop_cons_nil _ _ _ _ _ hnil, Unmarshal.loop_cons_nil _ _ _ _ _ hnil']
      refine ⟨ih1, ?_, ?_⟩
      · simp [h2, ih2]
      · intro r hr
        simp only [List.nil_append, List.mem_cons] at hr
        rcases hr with rfl | hr
        · exact h3
        · exact ih3 r hr
    · have hnil' : (unmarshalOne row m (fs1 ++ fs2) (zeroRecord (fs1 ++ fs2))).2 ≠ .nil := by
        rw [← h1]; exact hnil
      rw [Unmarshal.loop_cons_stop _ _ _ _ _ hnil, Unmarshal.loop_cons_stop _ _ _ _ _ hnil']
      exact ⟨h1, by simp, by simp⟩

/-- Missing column, the part of C8 the code keeps. When the header does not
hold the column tag of a bound field, that field, whatever its kind, plays
no part in the decoding:
`Unmarshal` ends exactly as it does for the struct type without the field
(so it succeeds whenever the remaining fields decode), every struct it
appends holds the zero value in that field, and the other fields are those
of the decoding without it. -/
theorem Unmarshal_missing_column (fs1 : List StructField) (f : StructField)
    (fs2 : List StructField) (header : List String) (rows : List (List String))
    (D D' : List Record) (tag : String)
    (htag : columnTag f = some tag) (hmiss : tag ∉ header) :
    (Unmarshal (fs1 ++ f :: fs2) (header :: rows) D).2
        = (Unmarshal (fs1 ++ fs2) (header :: rows) D').2 ∧
      (∀ r ∈ (Unmarshal (fs1 ++ f :: fs2) (header :: rows) D).1.drop D.length,
        r[fs1.length]? = some (zeroValue f.Kind)) ∧
      ((Unmarshal (fs1 ++ f :: fs2) (header :: rows) D).1.drop D.length).map
          (fun r => r.eraseIdx fs1.length)
        = (Unmarshal (fs1 ++ fs2) (header :: rows) D').1.drop D'.length := by
  have hnone : Unmarshal.namePos header (f.Tag.Get TAG_PREFIX) = none := by
    rw [Get_of_columnTag f tag htag, Unmarshal.namePos_eq]
    exact (lastIndexOf_eq_none _ _).2 hmiss
  obtain ⟨h1, h2, h3⟩ := Unmarshal.loop_skipped_field (Unmarshal.namePos header) fs1 f fs2 rows
    (fun row _ => unmarshalField_of_none row _ f hnone)
  rw [Unmarshal, Unmarshal, Unmarshal.loop_dest _ _ _ D, Unmarshal.loop_dest _ _ _ D']
  simp only [List.drop_left]
  exact ⟨h1, h3, h2⟩

/-- Missing column at `MyData` and a grid without the age column: both rows
decode, and the field `Age` is zero in both structs. -/
theorem Unmarshal_missing_column_witness :
    (Unmarshal MyData [["name", "has_pet"], ["Jon", "true"], ["Fred", "false"]] []).2
        = (Unmarshal
            [{ Name := "Name", Kind := .String, Tag := [("csv", "name")] },
              { Name := "HasPet", Kind := .Bool, Tag := [("csv", "has_pet")] }]
            [["name", "has_pet"], ["Jon", "true"], ["Fred", "false"]] []).2 ∧
      (Unmarshal MyData [["name", "has_pet"], ["Jon", "true"], ["Fred", "false"]] []).2 = .nil ∧
      ∀ r ∈ (Unmarshal MyData [["name", "has_pet"], ["Jon", "true"], ["Fred", "false"]] []).1,
        r[1]? = some (.int 0) := by
  have h := Unmarshal_missing_column
    [{ Name := "Name", Kind := .String, Tag := [("csv", "name")] }]
    { Name := "Age", Kind := .Int, Tag := [("csv", "age")] }
    [{ Name := "HasPet", Kind := .Bool, Tag := [("csv", "has_pet")] }]
    ["name", "has_pet"] [["Jon", "true"], ["Fred", "false"]] [] [] "age"
    (by decide) (by decide)
  exact ⟨h.1, by decide, h.2.1⟩

/-! ## Round trip -/

/-- A row `marshalOne` returns holds the texts of the bound values. -/
theorem marshalOne_eq_map : ∀ (t : StructType) (r : Record) (row : List String),
    marshalOne t r = .ok row → row = (boundValues t r).map externalText := by
  intro t
  induction t with
  | nil => intro r row h; cases r <;> simp_all [marshalOne, boundValues]
  | cons f fs ih =>
    intro r row h
    cases r with
    | nil => simp_all [marshalOne, boundValues]
    | cons v vs =>
      cases htag : StructTag.Lookup f.Tag TAG_PREFIX with
      | none =>
        simp only [marshalOne, htag] at h
        simpa [boundValues, columnTag, htag] using ih vs row h
      | some tag =>
        simp only [marshalOne, htag] at h
        cases hrest : marshalOne fs vs with
        | error e => cases v <;> simp [hrest] at h
        | ok out =>
          have := ih vs out hrest
          cases v <;> simp [hrest] at h <;>
            simp [boundValues, columnTag, htag, externalText, ← h, this]

/-- In a struct of the type, every field comes with a value of its type,
and a bound field with a position at which the header holds its tag and the
bound values hold its value. -/
theorem bound_positions : ∀ (t : StructType) (r : Record), Record.HasType r t →
    List.Forall₂ (fun f v => f ∈ t ∧ v.HasType f ∧ ∀ tag, columnTag f = some tag →
      ∃ j : Nat, (boundTags t)[j]? = some tag ∧ (boundValues t r)[j]? = some v) t r := by
  intro t
  induction t with
  | nil =>
    intro r h
    cases r with
    | nil => exact List.Forall₂.nil
    | cons v vs => exact absurd h (by simp [Record.HasType])
  | cons f fs ih =>
    intro r h
    cases r with
    | nil => exact absurd h (by simp [Record.HasType])
    | cons v vs =>
      have hrest := ih vs h.2
      cases htag : columnTag f with
      | none =>
        refine List.Forall₂.cons ⟨List.mem_cons_self _ _, h.1, ?_⟩ ?_
        · intro tag ht; rw [htag] at ht; cases ht
        · refine hrest.imp ?_
          rintro g w ⟨hg, hw, hpos⟩
          refine ⟨List.mem_cons_of_mem _ hg, hw, ?_⟩
          intro tag ht
          obtain ⟨j, h1, h2⟩ := hpos tag ht
          exact ⟨j, by simpa [boundTags, htag] using h1, by simpa [boundValues, htag] using h2⟩
      | some tag0 =>
        refine List.Forall₂.cons ⟨List.mem_cons_self _ _, h.1, ?_⟩ ?_
        · intro tag ht
          rw [htag] at ht
          cases ht
          exact ⟨0, by simp [boundTags, htag], by simp [boundValues, htag]⟩
        · refine hrest.imp ?_
          rintro g w ⟨hg, hw, hpos⟩
          refine ⟨List.mem_cons_of_mem _ hg, hw, ?_⟩
          intro tag ht
          obtain ⟨j, h1, h2⟩ := hpos tag ht
          exact ⟨j + 1, by simpa [boundTags, htag] using h1,
            by simpa [boundValues, htag] using h2⟩

/-- An exported bound field of a supported kind reads back the value whose
text is in its cell. -/
theorem unmarshalField_externalText (row : List String) (m : NamePos) (f : StructField)
    (v : Value) (j : Nat) (hv : v.HasType f)
    (hk : f.Kind = .String ∨ f.Kind = .Int ∨ f.Kind = .Bool) (hx : f.IsExported = true)
    (hm : m (f.Tag.Get TAG_PREFIX) = some j) (hcell : row[j]? = some (externalText v)) :
    unmarshalField row m f = .set v := by
  obtain ⟨hkind, hrange⟩ := hv
  cases v with
  | str x =>
    have : f.Kind = .String := hkind.symm
    simp [unmarshalField, hm, hcell, this, externalText, reflectSet, hx]
  | int i =>
    have : f.Kind = .Int := hkind.symm
    obtain ⟨hlo, hhi⟩ := hrange i rfl
    simp [unmarshalField, hm, hcell, this, externalText, ParseInt_FormatInt i hlo hhi,
      reflectSet, hx]
  | bool b =>
    have : f.Kind = .Bool := hkind.symm
    simp [unmarshalField, hm, hcell, this, externalText, ParseBool_FormatBool, reflectSet, hx]
  | other k c =>
    exfalso
    rw [Value.Kind] at hkind
    rcases hk with hk | hk | hk <;> rw [hk] at hkind <;> cases hkind

/-- When every bound field reads its value back and every other field is
passed over, the loop of `unmarshalOne` on the zero struct returns `nil`
and the struct of `keepBound`. -/
theorem unmarshalOne.fill_keepBound (row : List String) (m : NamePos) :
    ∀ (fs : List StructField) (vs : List Value),
      List.Forall₂ (fun f v => unmarshalField row m f
        = if (columnTag f).isSome then .set v else .skip) fs vs →
      unmarshalOne.fill row m fs (zeroRecord fs) = (keepBound fs vs, .nil) := by
  intro fs vs h
  induction h with
  | nil => simp [unmarshalOne.fill, zeroRecord, keepBound]
  | @cons f v fs vs hf _ ih =>
    have hz : zeroRecord (f :: fs) = zeroValue f.Kind :: zeroRecord fs := rfl
    rw [hz, unmarshalOne.fill, hf, ih]
    cases htag : columnTag f with
    | none => simp [keepBound, htag]
    | some tag => simp [keepBound, htag]

/-- Decoding the row `marshalOne` wrote for a struct, under the header
`marshalHeader` wrote, gives the struct of `keepBound`. -/
theorem unmarshalOne_marshalOne (t : StructType) (r : Record) (row : List String)
    (hs : SupportedKinds t) (hx : ∀ f ∈ t, (columnTag f).isSome → f.IsExported = true)
    (hr : Record.HasType r t)
    (hd : (boundTags t).Nodup) (he : (∃ f ∈ t, columnTag f = none) → "" ∉ boundTags t)
    (hrow : marshalOne t r = .ok row) :
    unmarshalOne row (Unmarshal.namePos (marshalHeader t)) t (zeroRecord t)
      = (keepBound t r, .nil) := by
  rw [unmarshalOne_eq_fill]
  apply unmarshalOne.fill_keepBound
  have hcells := marshalOne_eq_map t r row hrow
  refine (bound_positions t r hr).imp ?_
  rintro f v ⟨hf, hv, hpos⟩
  cases htag : columnTag f with
  | none =>
    have hnot := he ⟨f, hf, htag⟩
    have hnone : Unmarshal.namePos (marshalHeader t) (f.Tag.Get TAG_PREFIX) = none := by
      rw [Get_of_columnTag_none f htag, Unmarshal.namePos_eq, marshalHeader_eq_boundTags]
      exact (lastIndexOf_eq_none _ _).2 hnot
    simpa using unmarshalField_of_none row _ f hnone
  | some tag =>
    obtain ⟨j, h1, h2⟩ := hpos tag htag
    have hm : Unmarshal.namePos (marshalHeader t) (f.Tag.Get TAG_PREFIX) = some j := by
      rw [Get_of_columnTag f tag htag, Unmarshal.namePos_eq, marshalHeader_eq_boundTags]
      exact lastIndexOf_of_count_le_one _ _ j (List.nodup_iff_count_le_one.1 hd tag) h1
    have hcell : row[j]? = some (externalText v) := by
      rw [hcells, List.getElem?_map, h2]
      rfl
    have hk := hs f hf (by simp [htag])
    have hxf := hx f hf (by simp [htag])
    simpa using unmarshalField_externalText row _ f v j hv hk hxf hm hcell

/-- The loop of `Unmarshal` over the rows the loop of `Marshal` wrote. -/
theorem Unmarshal.loop_Marshal_loop (t : StructType)
    (hs : SupportedKinds t) (hx : ∀ f ∈ t, (columnTag f).isSome → f.IsExported = true)
    (hd : (boundTags t).Nodup)
    (he : (∃ f ∈ t, columnTag f = none) → "" ∉ boundTags t) :
    ∀ (R : List Record) (body : List (List String)) (D : List Record),
      (∀ r ∈ R, Record.HasType r t) → Marshal.loop t R = .ok body →
      Unmarshal.loop t (Unmarshal.namePos (marshalHeader t)) body D
        = (D ++ R.map (keepBound t), .nil) := by
  intro R
  induction R with
  | nil =>
    intro body D _ h
    simp only [Marshal.loop, Except.ok.injEq] at h
    subst h
    simp [Unmarshal.loop]
  | cons r rest ih =>
    intro body D hR h
    rw [Marshal.loop] at h
    cases hrow : marshalOne t r with
    | error e => rw [hrow] at h; cases h
    | ok row =>
      rw [hrow] at h
      cases hrest : Marshal.loop t rest with
      | error e => rw [hrest] at h; cases h
      | ok out =>
        rw [hrest] at h
        simp only [Except.ok.injEq] at h
        subst h
        have hone := unmarshalOne_marshalOne t r row hs hx (hR r (List.mem_cons_self _ _))
          hd he hrow
        rw [Unmarshal.loop, hone]
        simp only
        rw [ih out _ (fun x hx => hR x (List.mem_cons_of_mem _ hx)) hrest]
        simp

/-- The struct of `keepBound`, field by field: the value of the struct at a
bound field, the zero value at a field without a column tag. -/
theorem keepBound_getElem? : ∀ (t : StructType) (r : Record) (i : Nat) (f : StructField)
    (v : Value), t[i]? = some f → r[i]? = some v →
    (keepBound t r)[i]? = some (if (columnTag f).isSome then v else zeroValue f.Kind) := by
  intro t
  induction t with
  | nil => intro r i f v h; simp at h
  | cons g fs ih =>
    intro r i f v hf hv
    cases r with
    | nil => simp at hv
    | cons w vs =>
      cases i with
      | zero =>
        simp only [List.getElem?_cons_zero, Option.some.injEq] at hf hv
        subst hf hv
        simp [keepBound]
      | succ n =>
        simp only [List.getElem?_cons_succ] at hf hv
        simpa [keepBound] using ih vs n f v hf hv

/-- C1, as stated, fails, in two ways. For a struct type with two string
fields under the same column tag, `Marshal` writes both values but
`Unmarshal` reads the last cell into both fields, so the round trip changes
the struct. For a struct type whose bound string field is unexported,
`Marshal` reads the field and writes its row, but `Unmarshal` of that row
panics in `SetString` and appends nothing. -/
theorem round_trip_fails_on_equal_tags_or_unexported_field :
    (SupportedKinds TwoUnderOneTag ∧ Record.HasType [.str "1", .str "2"] TwoUnderOneTag ∧
      Marshal TwoUnderOneTag [[.str "1", .str "2"]] = .ok [["x", "x"], ["1", "2"]] ∧
      Unmarshal TwoUnderOneTag [["x", "x"], ["1", "2"]] []
        = ([[.str "2", .str "2"]], .nil)) ∧
    (SupportedKinds Unexported ∧ Record.HasType [.str "Jon"] Unexported ∧
      Marshal Unexported [[.str "Jon"]] = .ok [["name"], ["Jon"]] ∧
      Unmarshal Unexported [["name"], ["Jon"]] []
        = ([], .panic (.unexportedField "SetString"))) := by
  decide

/-- C1 (round trip), amended. For a struct type whose bound fields are all
exported and of kind string, int or bool, whose column tags are pairwise
distinct and, when it has a field without a column tag, are not the empty
string, and for every slice of structs of that type, `Marshal` succeeds and
`Unmarshal` of its rows into the empty destination returns `nil` with one
struct per struct of the slice, in order: equal to it on every bound field,
zero on every other field. -/
theorem Marshal_Unmarshal_round_trip (t : StructType) (R : List Record)
    (hs : SupportedKinds t) (hx : ∀ f ∈ t, (columnTag f).isSome → f.IsExported = true)
    (hR : ∀ r ∈ R, Record.HasType r t)
    (hd : (boundTags t).Nodup) (he : (∃ f ∈ t, columnTag f = none) → "" ∉ boundTags t) :
    ∃ rows, Marshal t R = .ok rows ∧ Unmarshal t rows [] = (R.map (keepBound t), .nil) := by
  obtain ⟨body, hbody, -⟩ := Marshal.loop_supported t hs R hR
  refine ⟨marshalHeader t :: body, by simp [Marshal, hbody], ?_⟩
  rw [Unmarshal, Unmarshal.loop_Marshal_loop t hs hx hd he R body [] hR hbody]
  simp

/-- C1 at a struct type with a bound and an unbound field: the name comes
back, the note comes back empty. -/
theorem Marshal_Unmarshal_round_trip_witness :
    ∃ rows, Marshal NamedNote [[.str "Jon", .str "likes tea"], [.str "Fred", .str ""]]
        = .ok rows ∧
      Unmarshal NamedNote rows []
        = ([[.str "Jon", .str "likes tea"], [.str "Fred", .str ""]].map (keepBound NamedNote),
           .nil) :=
  Marshal_Unmarshal_round_trip NamedNote [[.str "Jon", .str "likes tea"], [.str "Fred", .str ""]]
    (by decide) (by decide) (by decide) (by decide) (by decide)

/-! ## Fields without a column tag -/

/-- A field without a column tag adds nothing to the header: the header is
that of the struct type without the field. -/
theorem marshalHeader_without_untagged (fs1 : List StructField) (f : StructField)
    (fs2 : List StructField) (h : columnTag f = none) :
    marshalHeader (fs1 ++ f :: fs2) = marshalHeader (fs1 ++ fs2) := by
  simp [marshalHeader_eq_boundTags, boundTags, List.filterMap_append, h]

/-- Under a header without an empty column name, a field without a column
tag is zero in every struct `Unmarshal` appends. -/
theorem Unmarshal_untagged_zero (fs1 : List StructField) (f : StructField)
    (fs2 : List StructField) (header : List String) (rows : List (List String))
    (D : List Record) (h : columnTag f = none) (hempty : "" ∉ header) :
    ∀ r ∈ (Unmarshal (fs1 ++ f :: fs2) (header :: rows) D).1.drop D.length,
      r[fs1.length]? = some (zeroValue f.Kind) := by
  have hnone : Unmarshal.namePos header (f.Tag.Get TAG_PREFIX) = none := by
    rw [Get_of_columnTag_none f h, Unmarshal.namePos_eq]
    exact (lastIndexOf_eq_none _ _).2 hempty
  obtain ⟨-, -, h3⟩ := Unmarshal.loop_skipped_field (Unmarshal.namePos header) fs1 f fs2 rows
    (fun row _ => unmarshalField_of_none row _ f hnone)
  rw [Unmarshal, Unmarshal.loop_dest _ _ _ D]
  simpa using h3

/-- C2 on the code: the field `Note` of `NamedNote` has no column tag and
`marshalHeader` leaves it out, but under a header with an empty column name
`Unmarshal` writes the cell of that column into it; `unmarshalOne` looks the
field up under `Tag.Get`, which is the empty string when the key is absent,
where `marshalHeader` asks `Tag.Lookup` whether the key is there. -/
theorem Unmarshal_writes_untagged_field :
    marshalHeader NamedNote = ["name"] ∧
      (zeroRecord NamedNote)[1]? = some (.str "") ∧
      Unmarshal NamedNote [["name", ""], ["Jon", "x"]] [] = ([[.str "Jon", .str "x"]], .nil) := by
  decide

/-- C8 on the code: the header has no age column, and `Age` is the only
bound field of `AgeCount`, so nothing is left to decode; yet `Unmarshal`
returns an error, because the field `Count`, which has no column tag, is
looked up under the empty name the header holds and its cell is not a
number. -/
theorem Unmarshal_fails_on_untagged_field :
    boundTags AgeCount = ["age"] ∧ "age" ∉ ["name", ""] ∧
      Unmarshal AgeCount [["name", ""], ["Jon", "n/a"]] []
        = ([], .error (.NumError "ParseInt" "n/a" .ErrSyntax)) := by
  decide

/-! ## Worked examples -/

/-- C13 (worked example on `main.go`). `Unmarshal` of the grid of the example
into the empty destination returns `nil` with the structs of Jon and Fred in
that order, and `Marshal` of these two structs returns the three rows of
the grid. -/
theorem main_worked_example :
    Unmarshal MyData
        [["name", "age", "has_pet"], ["Jon", "100", "true"], ["Fred", "42", "false"]] []
      = ([[.str "Jon", .int 100, .bool true], [.str "Fred", .int 42, .bool false]], .nil) ∧
    Marshal MyData [[.str "Jon", .int 100, .bool true], [.str "Fred", .int 42, .bool false]]
      = .ok [["name", "age", "has_pet"], ["Jon", "100", "true"], ["Fred", "42", "false"]] := by
  decide

/-- C15 (header-only grid). On the grid that is a header row alone,
`Unmarshal` returns `nil` and leaves the destination as it was, whatever the
struct type, the header and the destination. -/
theorem Unmarshal_header_only (t : StructType) (header : List String) (D : List Record) :
    Unmarshal t [header] D = (D, .nil) := by
  simp [Unmarshal, Unmarshal.loop]

/-- C16 on the code: the tags of `MyData` in `dataMarshaler.go` are written
under the key `cvs`, the functions of that file look the key `csv` up, so no
field of that `MyData` is bound. Decoding the grid of the example gives two
zero structs, and encoding the structs of Jon and Fred gives three empty
rows. -/
theorem Copy_worked_example_is_empty :
    Copy.Unmarshal Copy.MyData
        [["name", "age", "has_pet"], ["Jon", "100", "true"], ["Fred", "42", "false"]] []
      = ([[.str "", .int 0, .bool false], [.str "", .int 0, .bool false]], .nil) ∧
    Copy.Marshal Copy.MyData
        [[.str "Jon", .int 100, .bool true], [.str "Fred", .int 42, .bool false]]
      = .ok [[], [], []] ∧
    Copy.marshalHeader Copy.MyData = [] := by
  decide

/-- With the key spelled `csv`, as in `main.go`, the functions of
`dataMarshaler.go` give the result of the example. -/
theorem Copy_worked_example_with_csv_key :
    Copy.Unmarshal MyData
        [["name", "age", "has_pet"], ["Jon", "100", "true"], ["Fred", "42", "false"]] []
      = ([[.str "Jon", .int 100, .bool true], [.str "Fred", .int 42, .bool false]], .nil) ∧
    Copy.Marshal MyData [[.str "Jon", .int 100, .bool true], [.str "Fred", .int 42, .bool false]]
      = .ok [["name", "age", "has_pet"], ["Jon", "100", "true"], ["Fred", "42", "false"]] := by
  decide

/-! ## The two files -/

/-- The two `marshalHeader` build the same header. -/
theorem Copy_marshalHeader_eq (t : StructType) : Copy.marshalHeader t = marshalHeader t := by
  induction t with
  | nil => rfl
  | cons f fs ih =>
    simp only [Copy.marshalHeader, marshalHeader, ih]
    rfl

/-- The two `marshalOne` return the same row or the same error. -/
theorem Copy_marshalOne_eq : ∀ (t : StructType) (r : Record),
    Copy.marshalOne t r = marshalOne t r := by
  intro t
  induction t with
  | nil => intro r; cases r <;> simp [Copy.marshalOne, marshalOne]
  | cons f fs ih =>
    intro r
    cases r with
    | nil => simp [Copy.marshalOne, marshalOne]
    | cons v vs =>
      have hkey : StructTag.Lookup f.Tag "csv" = StructTag.Lookup f.Tag TAG_PREFIX := rfl
      cases htag : StructTag.Lookup f.Tag TAG_PREFIX with
      | none => simp [Copy.marshalOne, marshalOne, hkey, htag, ih]
      | some tag => cases v <;> simp [Copy.marshalOne, marshalOne, hkey, htag, ih]

/-- The two loops of `Marshal` return the same rows or the same error. -/
theorem Copy_Marshal_loop_eq (t : StructType) (R : List Record) :
    Copy.Marshal.loop t R = Marshal.loop t R := by
  induction R with
  | nil => rfl
  | cons r rest ih => simp only [Copy.Marshal.loop, Marshal.loop, ih, Copy_marshalOne_eq]

/-- The two header loops build the same map. -/
theorem Copy_namePos_eq (header : List String) :
    Copy.Unmarshal.namePos header = DataMarshaler.Unmarshal.namePos header := by
  have h : ∀ (l : List String) (i : Nat) (m : NamePos),
      Copy.Unmarshal.namePos.loop l i m = DataMarshaler.Unmarshal.namePos.loop l i m := by
    intro l
    induction l with
    | nil => intro i m; rfl
    | cons name rest ih =>
      intro i m
      rw [Copy.Unmarshal.namePos.loop, DataMarshaler.Unmarshal.namePos.loop, ih]
  exact h header 0 _

/-- The two loop bodies of `unmarshalOne` do the same to a field, but for
the text of the error on a kind they have no case for. -/
theorem Copy_unmarshalField_eq (row : List String) (m : NamePos) (f : StructField) :
    Copy.unmarshalField row m f = unmarshalField row m f ∨
      ∃ k, Copy.unmarshalField row m f
          = .stop (.error (.Errorf "cannot handle field type %v" (.Other k))) ∧
        unmarshalField row m f
          = .stop (.error (.Errorf "cannot handle field of %v" (.Other k))) := by
  have hkey : f.Tag.Get "csv" = f.Tag.Get TAG_PREFIX := rfl
  cases hm : m (f.Tag.Get TAG_PREFIX) with
  | none => exact Or.inl (by simp [Copy.unmarshalField, unmarshalField, hkey, hm])
  | some pos =>
    cases hr : row[pos]? with
    | none => exact Or.inl (by simp [Copy.unmarshalField, unmarshalField, hkey, hm, hr])
    | some val =>
      cases hk : f.Kind with
      | String => exact Or.inl (by simp [Copy.unmarshalField, unmarshalField, hkey, hm, hr, hk])
      | Int => exact Or.inl (by simp [Copy.unmarshalField, unmarshalField, hkey, hm, hr, hk])
      | Bool => exact Or.inl (by simp [Copy.unmarshalField, unmarshalField, hkey, hm, hr, hk])
      | Other k =>
        exact Or.inr ⟨k, by simp [Copy.unmarshalField, hkey, hm, hr, hk],
          by simp [unmarshalField, hm, hr, hk]⟩

/-- The two loops of `unmarshalOne` fill the struct the same way and end the
same way, but for the text of an error. -/
theorem Copy_unmarshalOne_loop_eq (row : List String) (m : NamePos) :
    ∀ (fs : List StructField) (i : Nat) (vv : Record),
      (Copy.unmarshalOne.loop row m fs i vv).1 = (DataMarshaler.unmarshalOne.loop row m fs i vv).1 ∧
      (Copy.unmarshalOne.loop row m fs i vv).2.withoutText
        = (DataMarshaler.unmarshalOne.loop row m fs i vv).2.withoutText := by
  intro fs
  induction fs with
  | nil => intro i vv; exact ⟨rfl, rfl⟩
  | cons f fs ih =>
    intro i vv
    rw [Copy.unmarshalOne.loop, DataMarshaler.unmarshalOne.loop]
    rcases Copy_unmarshalField_eq row m f with h | ⟨k, h1, h2⟩
    · rw [h]
      cases unmarshalField row m f with
      | skip => exact ih _ _
      | set v => exact ih _ _
      | stop o => exact ⟨rfl, rfl⟩
    · rw [h1, h2]
      exact ⟨rfl, rfl⟩

/-- Two outcomes that are the same but for the text of an error are both
`nil` or both not. -/
theorem Outcome.withoutText_eq_nil (o o' : Outcome) (h : o.withoutText = o'.withoutText) :
    o = .nil ↔ o' = .nil := by
  cases o with
  | nil =>
    cases o' with
    | nil => simp
    | panic q => simp [Outcome.withoutText] at h
    | error e => cases e <;> simp [Outcome.withoutText] at h
  | panic p =>
    cases o' with
    | nil => simp [Outcome.withoutText] at h
    | panic q => simp
    | error e => simp
  | error e =>
    cases o' with
    | nil => cases e <;> simp [Outcome.withoutText] at h
    | panic q => simp
    | error e' => simp

/-- The two loops of `Unmarshal` leave the same destination and end the same
way, but for the text of an error. -/
theorem Copy_Unmarshal_loop_eq (t : StructType) (m : NamePos) (rows : List (List String)) :
    ∀ D : List Record,
      (Copy.Unmarshal.loop t m rows D).1 = (DataMarshaler.Unmarshal.loop t m rows D).1 ∧
      (Copy.Unmarshal.loop t m rows D).2.withoutText
        = (DataMarshaler.Unmarshal.loop t m rows D).2.withoutText := by
  induction rows with
  | nil => intro D; exact ⟨rfl, rfl⟩
  | cons row rest ih =>
    intro D
    obtain ⟨h1, h2⟩ := Copy_unmarshalOne_loop_eq row m t 0 (zeroRecord t)
    rw [Copy.Unmarshal.loop, DataMarshaler.Unmarshal.loop, Copy.unmarshalOne,
      DataMarshaler.unmarshalOne]
    rcases hc : Copy.unmarshalOne.loop row m t 0 (zeroRecord t) with ⟨nv, o⟩
    rcases hm : DataMarshaler.unmarshalOne.loop row m t 0 (zeroRecord t) with ⟨nv', o'⟩
    rw [hc, hm] at h1 h2
    simp only at h1 h2
    subst h1
    have hnil := Outcome.withoutText_eq_nil o o' h2
    cases o with
    | nil =>
      have : o' = .nil := hnil.1 rfl
      subst this
      exact ih _
    | error e =>
      cases o' with
      | nil => exact absurd (hnil.2 rfl) (by simp)
      | error e' => exact ⟨rfl, h2⟩
      | panic q => exact ⟨rfl, h2⟩
    | panic p =>
      cases o' with
      | nil => exact absurd (hnil.2 rfl) (by simp)
      | error e' => exact ⟨rfl, h2⟩
      | panic q => exact ⟨rfl, h2⟩

/-- C17 (the two copies implement the same logic). For the same struct type
and the same input, `Marshal` of `dataMarshaler.go` returns what `Marshal`
of `main.go` returns, rows or error; `Unmarshal` of `dataMarshaler.go`
leaves the destination `Unmarshal` of `main.go` leaves, returns `nil` exactly
when it does, and otherwise ends the same way but for the text of the error
message. -/
theorem Copy_same_logic (t : StructType) (R : List Record) (data : List (List String))
    (D : List Record) :
    Copy.Marshal t R = Marshal t R ∧
      (Copy.Unmarshal t data D).1 = (Unmarshal t data D).1 ∧
      ((Copy.Unmarshal t data D).2 = .nil ↔ (Unmarshal t data D).2 = .nil) ∧
      (Copy.Unmarshal t data D).2.withoutText = (Unmarshal t data D).2.withoutText := by
  refine ⟨?_, ?_⟩
  · simp only [Copy.Marshal, Marshal, Copy_Marshal_loop_eq, Copy_marshalHeader_eq]
  · cases data with
    | nil => exact ⟨rfl, Iff.rfl, rfl⟩
    | cons header rows =>
      rw [Copy.Unmarshal, Unmarshal, Copy_namePos_eq]
      obtain ⟨h1, h2⟩ := Copy_Unmarshal_loop_eq t (Unmarshal.namePos header) rows D
      exact ⟨h1, Outcome.withoutText_eq_nil _ _ h2, h2⟩

/-- The two files differ in the text of the error on a field of a kind they
have no case for. -/
theorem Copy_error_text_differs :
    Unmarshal Scored [["score"], ["1.5"]] []
      = ([], .error (.Errorf "cannot handle field of %v" (.Other .Float64))) ∧
    Copy.Unmarshal Scored [["score"], ["1.5"]] []
      = ([], .error (.Errorf "cannot handle field type %v" (.Other .Float64))) := by
  decide

/-! ## `Marshal` on kinds it has no case for -/

/-- No bound field is of an unsupported kind exactly when all are of the
three kinds. -/
theorem firstUnsupported_eq_none (t : StructType) :
    firstUnsupported t = none ↔ SupportedKinds t := by
  induction t with
  | nil => simp [firstUnsupported, SupportedKinds]
  | cons f fs ih =>
    have hcons : SupportedKinds (f :: fs) ↔
        ((columnTag f).isSome → f.Kind = .String ∨ f.Kind = .Int ∨ f.Kind = .Bool) ∧
          SupportedKinds fs := by
      simp [SupportedKinds]
    rw [hcons, ← ih, firstUnsupported]
    cases htag : columnTag f with
    | none => simp
    | some tag => cases hk : f.Kind <;> simp

/-- The kind `firstUnsupported` gives is that of a bound field before which
every bound field is of the three kinds. -/
theorem firstUnsupported_eq_some (t : StructType) (k : OtherKind) :
    firstUnsupported t = some k →
      ∃ fs1 f fs2, t = fs1 ++ f :: fs2 ∧ SupportedKinds fs1 ∧ (columnTag f).isSome ∧
        f.Kind = .Other k := by
  induction t with
  | nil => intro h; simp [firstUnsupported] at h
  | cons g fs ih =>
    intro h
    have hrec : (∀ j, ¬ ((columnTag g).isSome ∧ g.Kind = .Other j)) →
        firstUnsupported (g :: fs) = firstUnsupported fs := by
      intro hno
      rw [firstUnsupported]
      cases htag : columnTag g with
      | none => simp
      | some tag =>
        cases hk : g.Kind with
        | Other j => exact absurd ⟨by simp [htag], hk⟩ (hno j)
        | String => simp
        | Int => simp
        | Bool => simp
    by_cases hg : ∃ j, (columnTag g).isSome ∧ g.Kind = .Other j
    · obtain ⟨j, hb, hj⟩ := hg
      have hfirst : firstUnsupported (g :: fs) = some j := by
        rw [firstUnsupported]
        cases htag : columnTag g with
        | none => simp [htag] at hb
        | some tag => simp [hj]
      rw [hfirst] at h
      cases h
      exact ⟨[], g, fs, rfl, by simp [SupportedKinds], hb, hj⟩
    · have hno : ∀ j, ¬ ((columnTag g).isSome ∧ g.Kind = .Other j) := fun j hj => hg ⟨j, hj⟩
      rw [hrec hno] at h
      obtain ⟨fs1, f, fs2, ht, hs, hb, hk⟩ := ih h
      refine ⟨g :: fs1, f, fs2, by simp [ht], ?_, hb, hk⟩
      intro x hx hxb
      rcases List.mem_cons.1 hx with rfl | hmem
      · cases hkx : x.Kind with
        | Other j => exact absurd ⟨hxb, hkx⟩ (hno j)
        | String => simp
        | Int => simp
        | Bool => simp
      · exact hs x hmem hxb

/-- On a struct of a type with a bound field of an unsupported kind,
`marshalOne` returns the error that names the kind of the first such
field. -/
theorem marshalOne_firstUnsupported (k : OtherKind) : ∀ (t : StructType) (r : Record),
    Record.HasType r t → firstUnsupported t = some k →
    marshalOne t r = .error (.Errorf "cannot handle field of kind %v" (.Other k)) := by
  intro t
  induction t with
  | nil => intro r _ h; simp [firstUnsupported] at h
  | cons f fs ih =>
    intro r hr h
    cases r with
    | nil => exact absurd hr (by simp [Record.HasType])
    | cons v vs =>
      have hv : v.Kind = f.Kind := hr.1.1
      rw [firstUnsupported] at h
      cases htag : columnTag f with
      | none =>
        rw [htag] at h
        have hl : StructTag.Lookup f.Tag TAG_PREFIX = none := htag
        simp only [marshalOne, hl]
        exact ih vs hr.2 (by simpa using h)
      | some tag =>
        rw [htag] at h
        have hl : StructTag.Lookup f.Tag TAG_PREFIX = some tag := htag
        cases hk : f.Kind with
        | Other j =>
          rw [hk] at h hv
          simp only [Option.some.injEq] at h
          subst h
          cases v with
          | other j' c =>
            simp only [Value.Kind, Kind.Other.injEq] at hv
            subst hv
            simp [marshalOne, hl]
          | str x => simp [Value.Kind] at hv
          | int x => simp [Value.Kind] at hv
          | bool x => simp [Value.Kind] at hv
        | String =>
          rw [hk] at h hv
          have hrest := ih vs hr.2 (by simpa using h)
          cases v with
          | str x => simp [marshalOne, hl, hrest]
          | other j' c => simp [Value.Kind] at hv
          | int x => simp [Value.Kind] at hv
          | bool x => simp [Value.Kind] at hv
        | Int =>
          rw [hk] at h hv
          have hrest := ih vs hr.2 (by simpa using h)
          cases v with
          | int x => simp [marshalOne, hl, hrest]
          | other j' c => simp [Value.Kind] at hv
          | str x => simp [Value.Kind] at hv
          | bool x => simp [Value.Kind] at hv
        | Bool =>
          rw [hk] at h hv
          have hrest := ih vs hr.2 (by simpa using h)
          cases v with
          | bool x => simp [marshalOne, hl, hrest]
          | other j' c => simp [Value.Kind] at hv
          | str x => simp [Value.Kind] at hv
          | int x => simp [Value.Kind] at hv

/-- C11 (encode unsupported kind). For a slice of structs of a type:
when the type has a bound field of a kind other than string, int or bool and
the slice is not empty, `Marshal` returns no rows and the error that names
the kind of the first such field in declaration order; `Marshal` returns an
error in no other case, so a field without a column tag never makes it
fail, whatever its kind. -/
theorem Marshal_unsupported_kind (t : StructType) (R : List Record)
    (hR : ∀ r ∈ R, Record.HasType r t) :
    (∀ k, firstUnsupported t = some k → R ≠ [] →
        Marshal t R = .error (.Errorf "cannot handle field of kind %v" (.Other k))) ∧
      (∀ k, firstUnsupported t = some k →
        ∃ fs1 f fs2, t = fs1 ++ f :: fs2 ∧ SupportedKinds fs1 ∧ (columnTag f).isSome ∧
          f.Kind = .Other k) ∧
      ((∃ e, Marshal t R = .error e) ↔
        R ≠ [] ∧ ∃ f ∈ t, (columnTag f).isSome ∧ ∃ k, f.Kind = .Other k) := by
  have hfail : ∀ k, firstUnsupported t = some k → R ≠ [] →
      Marshal t R = .error (.Errorf "cannot handle field of kind %v" (.Other k)) := by
    intro k hk hne
    cases R with
    | nil => exact absurd rfl hne
    | cons r rest =>
      have h1 := marshalOne_firstUnsupported k t r (hR r (List.mem_cons_self _ _)) hk
      simp [Marshal, Marshal.loop, h1]
  refine ⟨hfail, fun k => firstUnsupported_eq_some t k, ?_⟩
  constructor
  · rintro ⟨e, he⟩
    have hne : R ≠ [] := by
      rintro rfl
      simp [Marshal, Marshal.loop] at he
    refine ⟨hne, ?_⟩
    cases hf : firstUnsupported t with
    | none =>
      have hs := (firstUnsupported_eq_none t).1 hf
      obtain ⟨body, hbody, -⟩ := Marshal.loop_supported t hs R hR
      simp [Marshal, hbody] at he
    | some k =>
      obtain ⟨fs1, f, fs2, ht, -, hb, hk⟩ := firstUnsupported_eq_some t k hf
      exact ⟨f, by simp [ht], hb, k, hk⟩
  · rintro ⟨hne, f, hf, hb, k, hk⟩
    cases hfu : firstUnsupported t with
    | none =>
      have hs := (firstUnsupported_eq_none t).1 hfu
      have := hs f hf hb
      rw [hk] at this
      simp at this
    | some j => exact ⟨_, hfail j hfu hne⟩

/-- C11 at a struct type with two bound fields of unsupported kinds: the
error names the kind of the first, float64. -/
theorem Marshal_unsupported_kind_witness :
    Marshal NamedScoreLabels [[.str "Jon", .other .Float64 3, .other .Map 1]]
      = .error (.Errorf "cannot handle field of kind %v" (.Other .Float64)) :=
  (Marshal_unsupported_kind NamedScoreLabels [[.str "Jon", .other .Float64 3, .other .Map 1]]
    (by decide)).1 .Float64 (by decide) (by decide)

/-- A float64 field without a column tag does not make `Marshal` fail. -/
theorem Marshal_untagged_unsupported_ok :
    Marshal NamedExtra [[.str "Jon", .other .Float64 3]] = .ok [["name"], ["Jon"]] := by
  decide

/-! ## Index reads -/

/-- A position the map of a header holds is a position of the header. -/
theorem Unmarshal.namePos_lt_length (header : List String) (key : String) (pos : Nat)
    (h : Unmarshal.namePos header key = some pos) : pos < header.length := by
  rw [Unmarshal.namePos_eq] at h
  obtain ⟨hj, -⟩ := lastIndexOf_eq_some header key pos h
  by_contra hc
  rw [List.getElem?_eq_none (by omega)] at hj
  cases hj

/-- On a row at least as long as the header, no field ends the call with an
index out of range. -/
theorem unmarshalField_no_index_panic (header row : List String) (f : StructField)
    (hlen : header.length ≤ row.length) (i l : Nat) :
    unmarshalField row (Unmarshal.namePos header) f ≠ .stop (.panic (.indexOutOfRange i l)) := by
  cases hm : Unmarshal.namePos header (f.Tag.Get TAG_PREFIX) with
  | none => simp [unmarshalField, hm]
  | some pos =>
    have hpos := Unmarshal.namePos_lt_length header _ pos hm
    obtain ⟨val, hval⟩ : ∃ val, row[pos]? = some val :=
      ⟨_, List.getElem?_eq_getElem (by omega)⟩
    have hset : ∀ (method : String) (v : Value),
        reflectSet f method v ≠ .stop (.panic (.indexOutOfRange i l)) := by
      intro method v
      rcases reflectSet_cases f method v with h | h <;> rw [h] <;> simp
    cases hk : f.Kind with
    | String => simpa [unmarshalField, hm, hval, hk] using hset _ _
    | Int =>
      cases hp : ParseInt val with
      | error e => simp [unmarshalField, hm, hval, hk, hp]
      | ok n => simpa [unmarshalField, hm, hval, hk, hp] using hset _ _
    | Bool =>
      cases hp : ParseBool val with
      | error e => simp [unmarshalField, hm, hval, hk, hp]
      | ok b => simpa [unmarshalField, hm, hval, hk, hp] using hset _ _
    | Other k => simp [unmarshalField, hm, hval, hk]

/-- A field ends the call with the panic of a `Set` method only when it is
not exported and the header has a column for the name it is looked up
under. -/
theorem unmarshalField_unexported_panic (row : List String) (m : NamePos) (f : StructField)
    (method : String) (h : unmarshalField row m f = .stop (.panic (.unexportedField method))) :
    f.IsExported = false ∧ (m (f.Tag.Get TAG_PREFIX)).isSome := by
  have hset : ∀ (name : String) (v : Value),
      reflectSet f name v = .stop (.panic (.unexportedField method)) →
      f.IsExported = false := by
    intro name v hv
    cases hx : f.IsExported with
    | false => rfl
    | true => rw [reflectSet_of_exported f name v hx] at hv; cases hv
  cases hm : m (f.Tag.Get TAG_PREFIX) with
  | none => simp [unmarshalField, hm] at h
  | some pos =>
    refine ⟨?_, rfl⟩
    cases hr : row[pos]? with
    | none => simp [unmarshalField, hm, hr] at h
    | some val =>
      cases hk : f.Kind with
      | String => exact hset _ _ (by simpa [unmarshalField, hm, hr, hk] using h)
      | Int =>
        cases hp : ParseInt val with
        | error e => simp [unmarshalField, hm, hr, hk, hp] at h
        | ok n => exact hset _ _ (by simpa [unmarshalField, hm, hr, hk, hp] using h)
      | Bool =>
        cases hp : ParseBool val with
        | error e => simp [unmarshalField, hm, hr, hk, hp] at h
        | ok b => exact hset _ _ (by simpa [unmarshalField, hm, hr, hk, hp] using h)
      | Other k => simp [unmarshalField, hm, hr, hk] at h

/-- When no field ends the call with a given panic, the loop of
`unmarshalOne` does not end with it. -/
theorem unmarshalOne.fill_no_panic (row : List String) (m : NamePos) (p : GoPanic) :
    ∀ (fs : List StructField) (vs : List Value),
      (∀ g ∈ fs, unmarshalField row m g ≠ .stop (.panic p)) →
      (unmarshalOne.fill row m fs vs).2 ≠ .panic p := by
  intro fs
  induction fs with
  | nil => intro vs _; simp [unmarshalOne.fill]
  | cons f fs ih =>
    intro vs h
    cases vs with
    | nil => simp [unmarshalOne.fill]
    | cons v vs =>
      have hf := h f (List.mem_cons_self _ _)
      have hrest := ih vs (fun g hg => h g (List.mem_cons_of_mem _ hg))
      rw [unmarshalOne.fill]
      cases hstep : unmarshalField row m f with
      | skip => simpa using hrest
      | set w => simpa using hrest
      | stop o =>
        simp only
        intro ho
        rw [ho] at hstep
        exact hf hstep

/-- When no row ends with a given panic, the loop of `Unmarshal` does not end
with it. -/
theorem Unmarshal.loop_no_panic (t : StructType) (m : NamePos) (rows : List (List String))
    (p : GoPanic) (h : ∀ row ∈ rows, (unmarshalOne row m t (zeroRecord t)).2 ≠ .panic p) :
    ∀ D : List Record, (Unmarshal.loop t m rows D).2 ≠ .panic p := by
  induction rows with
  | nil => intro D; simp [Unmarshal.loop]
  | cons row rest ih =>
    intro D
    have hrow := h row (List.mem_cons_self _ _)
    have hrest := ih (fun r hr => h r (List.mem_cons_of_mem _ hr))
    rw [Unmarshal.loop]
    rcases hu : unmarshalOne row m t (zeroRecord t) with ⟨newVal, o⟩
    rw [hu] at hrow
    cases o with
    | nil => exact hrest _
    | error e => simp
    | panic q => simpa using hrow

/-- An outcome that is a panic once the text of errors is blanked is that
panic. -/
theorem Outcome.eq_panic_of_withoutText (o : Outcome) (p : GoPanic)
    (h : o.withoutText = .panic p) : o = .panic p := by
  cases o with
  | nil => simp [Outcome.withoutText] at h
  | panic q => simpa [Outcome.withoutText] using h
  | error e => cases e <;> simp [Outcome.withoutText] at h

/-- C19, as stated, fails: the grid has a header row and its data row is as
long as the header, so every index read is in range, yet for a struct type
whose bound string field is unexported the call ends neither with `nil` nor
with an error value: `SetString` panics, in `main.go` and in
`dataMarshaler.go`. -/
theorem Unmarshal_panics_on_unexported_field :
    Unmarshal Unexported [["name"], ["Jon"]] []
        = ([], .panic (.unexportedField "SetString")) ∧
      Copy.Unmarshal Unexported [["name"], ["Jon"]] []
        = ([], .panic (.unexportedField "SetString")) ∧
      ["name"].length ≤ ["Jon"].length := by
  decide

/-- C19 (index safety of `Unmarshal`), amended. On a grid with a header row
in which every data row has at least as many cells as the header, no index
read of `Unmarshal` is out of range: the call never ends with an
index-out-of-range panic, and it ends by returning `nil` or an error value
when every field for whose lookup name the header has a column is exported,
in `main.go` and in `dataMarshaler.go`. On the grid without rows the read
of `data[0]` is out of range, in both. -/
theorem Unmarshal_index_safety (t : StructType) (header : List String)
    (rows : List (List String)) (D : List Record)
    (hrows : ∀ row ∈ rows, header.length ≤ row.length) :
    (∀ i l : Nat, (Unmarshal t (header :: rows) D).2 ≠ .panic (.indexOutOfRange i l)) ∧
      (∀ i l : Nat, (Copy.Unmarshal t (header :: rows) D).2 ≠ .panic (.indexOutOfRange i l)) ∧
      ((∀ f ∈ t, (Unmarshal.namePos header (f.Tag.Get TAG_PREFIX)).isSome →
          f.IsExported = true) →
        ((Unmarshal t (header :: rows) D).2 = .nil ∨
          ∃ e, (Unmarshal t (header :: rows) D).2 = .error e) ∧
        ((Copy.Unmarshal t (header :: rows) D).2 = .nil ∨
          ∃ e, (Copy.Unmarshal t (header :: rows) D).2 = .error e)) ∧
      Unmarshal t [] D = (D, .panic (.indexOutOfRange 0 0)) ∧
      Copy.Unmarshal t [] D = (D, .panic (.indexOutOfRange 0 0)) := by
  -- a panic of the call is the panic of some field on some row
  have hfield : ∀ p : GoPanic,
      (∀ row ∈ rows, ∀ g ∈ t,
        unmarshalField row (Unmarshal.namePos header) g ≠ .stop (.panic p)) →
      (Unmarshal t (header :: rows) D).2 ≠ .panic p := by
    intro p hp
    rw [Unmarshal]
    refine Unmarshal.loop_no_panic t _ rows p ?_ D
    intro row hrow
    rw [unmarshalOne_eq_fill]
    exact unmarshalOne.fill_no_panic row _ p t _ (fun g hg => hp row hrow g hg)
  have hcopy : ∀ p : GoPanic, (Unmarshal t (header :: rows) D).2 ≠ .panic p →
      (Copy.Unmarshal t (header :: rows) D).2 ≠ .panic p := by
    intro p hmain hp
    have hsame : (Copy.Unmarshal t (header :: rows) D).2.withoutText
        = (Unmarshal t (header :: rows) D).2.withoutText := by
      rw [Copy.Unmarshal, Unmarshal, Copy_namePos_eq]
      exact (Copy_Unmarshal_loop_eq t _ rows D).2
    rw [hp] at hsame
    exact hmain (Outcome.eq_panic_of_withoutText _ p hsame.symm)
  have hindex : ∀ i l : Nat,
      (Unmarshal t (header :: rows) D).2 ≠ .panic (.indexOutOfRange i l) := by
    intro i l
    exact hfield _ (fun row hrow g _ =>
      unmarshalField_no_index_panic header row g (hrows row hrow) i l)
  have hsplit : ∀ o : Outcome, (∀ p, o ≠ .panic p) → o = .nil ∨ ∃ e, o = .error e := by
    intro o ho
    cases o with
    | nil => exact Or.inl rfl
    | error e => exact Or.inr ⟨e, rfl⟩
    | panic q => exact absurd rfl (ho q)
  refine ⟨hindex, fun i l => hcopy _ (hindex i l), ?_, rfl, rfl⟩
  intro hx
  have hnone : ∀ p : GoPanic, (Unmarshal t (header :: rows) D).2 ≠ .panic p := by
    intro p
    cases p with
    | indexOutOfRange i l => exact hindex i l
    | unexportedField method =>
      refine hfield _ (fun row _ g hg hstop => ?_)
      obtain ⟨h1, h2⟩ := unmarshalField_unexported_panic row _ g method hstop
      rw [hx g hg h2] at h1
      cases h1
  exact ⟨hsplit _ hnone, hsplit _ (fun p => hcopy p (hnone p))⟩

/-- C19 at `MyData` and a grid whose data row is longer than the header and
whose age cell is malformed: all the fields are exported, and the call
returns an error. -/
theorem Unmarshal_index_safety_witness :
    ((Unmarshal MyData [["name", "age", "has_pet"], ["Jon", "x", "true", "extra"]] []).2 = .nil ∨
        ∃ e, (Unmarshal MyData
          [["name", "age", "has_pet"], ["Jon", "x", "true", "extra"]] []).2 = .error e) ∧
      Unmarshal MyData [] [] = ([], .panic (.indexOutOfRange 0 0)) := by
  have h := Unmarshal_index_safety MyData ["name", "age", "has_pet"]
    [["Jon", "x", "true", "extra"]] [] (by decide)
  exact ⟨(h.2.2.1 (by decide)).1, h.2.2.2.1⟩

/-! ## The shape of the rows of `Marshal` -/

/-- A struct of the type has one value per field. -/
theorem Record.HasType.length_eq : ∀ (r : Record) (t : StructType),
    Record.HasType r t → r.length = t.length := by
  intro r
  induction r with
  | nil => intro t h; cases t with
    | nil => rfl
    | cons f fs => exact absurd h (by simp [Record.HasType])
  | cons v vs ih =>
    intro t h
    cases t with
    | nil => exact absurd h (by simp [Record.HasType])
    | cons f fs => simp [ih fs h.2]

/-- The bound values are the values of the bound pairs. -/
theorem boundValues_eq_map : ∀ (t : StructType) (r : Record),
    boundValues t r = (boundPairs t r).map Prod.snd := by
  intro t
  induction t with
  | nil => intro r; cases r <;> simp [boundValues, boundPairs]
  | cons f fs ih =>
    intro r
    cases r with
    | nil => simp [boundValues, boundPairs]
    | cons v vs =>
      by_cases hb : (columnTag f).isSome
      · simp [boundValues, boundPairs, hb, ih]
      · simp [boundValues, boundPairs, hb, ih]

/-- The column tags are the tags of the fields of the bound pairs. -/
theorem boundTags_eq_map : ∀ (t : StructType) (r : Record), r.length = t.length →
    boundTags t = (boundPairs t r).map (fun p => (columnTag p.1).getD "") := by
  intro t
  induction t with
  | nil => intro r _; cases r <;> simp [boundTags, boundPairs]
  | cons f fs ih =>
    intro r hlen
    cases r with
    | nil => simp at hlen
    | cons v vs =>
      have hlen' : vs.length = fs.length := by simpa using hlen
      have hrest := ih vs hlen'
      simp only [boundTags] at hrest ⊢
      cases htag : columnTag f with
      | none => simp [boundPairs, htag, hrest]
      | some tag => simp [boundPairs, htag, hrest]

/-- There are as many column tags as fields with a column tag. -/
theorem boundTags_length (t : StructType) :
    (boundTags t).length = (t.filter (fun f => (columnTag f).isSome)).length := by
  induction t with
  | nil => rfl
  | cons f fs ih =>
    simp only [boundTags] at ih ⊢
    cases htag : columnTag f with
    | none => simp [htag, ih]
    | some tag => simp [htag, ih]

/-- The rows the loop of `Marshal` returns are those `marshalOne` returns,
struct by struct. -/
theorem Marshal.loop_rows (t : StructType) : ∀ (R : List Record) (body : List (List String)),
    Marshal.loop t R = .ok body →
    List.Forall₂ (fun r row => marshalOne t r = .ok row) R body := by
  intro R
  induction R with
  | nil =>
    intro body h
    simp only [Marshal.loop, Except.ok.injEq] at h
    subst h
    exact List.Forall₂.nil
  | cons r rest ih =>
    intro body h
    rw [Marshal.loop] at h
    cases hrow : marshalOne t r with
    | error e => rw [hrow] at h; cases h
    | ok row =>
      rw [hrow] at h
      cases hrest : Marshal.loop t rest with
      | error e => rw [hrest] at h; cases h
      | ok out =>
        rw [hrest] at h
        simp only [Except.ok.injEq] at h
        subst h
        exact List.Forall₂.cons hrow (ih out hrest)

/-- C20 (rectangular output). When `Marshal` returns rows for a slice of
structs of a type, the first row is the header, with one column tag per
field that has one, and then comes one row per struct, each as long as the
header; position by position, the header holds the tag and the row holds the
text of the value of the same bound field of the struct. -/
theorem Marshal_rectangular (t : StructType) (R : List Record) (rows : List (List String))
    (hR : ∀ r ∈ R, Record.HasType r t) (h : Marshal t R = .ok rows) :
    ∃ body, rows = boundTags t :: body ∧
      (boundTags t).length = (t.filter (fun f => (columnTag f).isSome)).length ∧
      List.Forall₂ (fun r row => row.length = (boundTags t).length ∧
        (boundTags t).zip row
          = (boundPairs t r).map (fun p => ((columnTag p.1).getD "", externalText p.2)))
        R body := by
  rw [Marshal] at h
  cases hl : Marshal.loop t R with
  | error e => rw [hl] at h; cases h
  | ok body =>
    rw [hl] at h
    simp only [Except.ok.injEq] at h
    refine ⟨body, by rw [← h, marshalHeader_eq_boundTags], boundTags_length t, ?_⟩
    have hrows := Marshal.loop_rows t R body hl
    clear h hl
    induction hrows with
    | nil => exact List.Forall₂.nil
    | @cons r row R' body' hrow _ ih =>
      refine List.Forall₂.cons ?_ (ih (fun x hx => hR x (List.mem_cons_of_mem _ hx)))
      have hlen := Record.HasType.length_eq r t (hR r (List.mem_cons_self _ _))
      have hcells := marshalOne_eq_map t r row hrow
      rw [boundValues_eq_map] at hcells
      have htags := boundTags_eq_map t r hlen
      constructor
      · rw [hcells, htags]; simp
      · rw [hcells, htags, List.map_map, List.zip_map']
        rfl

/-- C20 at the two structs of the worked example. -/
theorem Marshal_rectangular_witness :
    ∃ body, [["name", "age", "has_pet"], ["Jon", "100", "true"], ["Fred", "42", "false"]]
        = boundTags MyData :: body ∧
      (boundTags MyData).length = (MyData.filter (fun f => (columnTag f).isSome)).length ∧
      List.Forall₂ (fun r row => row.length = (boundTags MyData).length ∧
        (boundTags MyData).zip row
          = (boundPairs MyData r).map (fun p => ((columnTag p.1).getD "", externalText p.2)))
        [[.str "Jon", .int 100, .bool true], [.str "Fred", .int 42, .bool false]] body :=
  Marshal_rectangular MyData
    [[.str "Jon", .int 100, .bool true], [.str "Fred", .int 42, .bool false]]
    [["name", "age", "has_pet"], ["Jon", "100", "true"], ["Fred", "42", "false"]]
    (by decide) (by decide)

/-! ## Names that occur more than once in the header -/

/-- A field does the same on two rows of the same length that hold the same
cell at the position its key is mapped to. -/
theorem unmarshalField_congr_row (m : NamePos) (f : StructField) (row row' : List String)
    (hlen : row.length = row'.length)
    (h : ∀ pos, m (f.Tag.Get TAG_PREFIX) = some pos → row[pos]? = row'[pos]?) :
    unmarshalField row m f = unmarshalField row' m f := by
  unfold unmarshalField
  cases hm : m (f.Tag.Get TAG_PREFIX) with
  | none => rfl
  | some pos =>
    simp only
    rw [h pos hm, hlen]

/-- The loop of `Unmarshal` does the same on two lists of rows that agree,
row by row, on the last column of every name. -/
theorem Unmarshal.loop_agree (t : StructType) (header : List String)
    (rows rows' : List (List String))
    (h : List.Forall₂ (AgreeOnLastColumns header) rows rows') :
    ∀ D : List Record,
      Unmarshal.loop t (Unmarshal.namePos header) rows D
        = Unmarshal.loop t (Unmarshal.namePos header) rows' D := by
  induction h with
  | nil => intro D; rfl
  | @cons row row' rest rest' hrow _ ih =>
    intro D
    have hone : unmarshalOne row (Unmarshal.namePos header) t (zeroRecord t)
        = unmarshalOne row' (Unmarshal.namePos header) t (zeroRecord t) := by
      rw [unmarshalOne_eq_fill, unmarshalOne_eq_fill]
      refine unmarshalOne.fill_congr row' row _ _ t _ (fun g _ => ?_)
      refine unmarshalField_congr_row _ g row row' hrow.1 (fun pos hpos => ?_)
      rw [Unmarshal.namePos_eq] at hpos
      exact hrow.2 _ pos hpos
    rw [Unmarshal.loop, Unmarshal.loop, hone]
    rcases unmarshalOne row' (Unmarshal.namePos header) t (zeroRecord t) with ⟨newVal, o⟩
    cases o with
    | nil => exact ih _
    | error e => rfl
    | panic q => rfl

/-- C14 (duplicate header names resolve to the last occurrence). For a
bound field whose column tag occurs in the header, the position `Unmarshal`
reads the field from is the greatest position at which the header holds the
tag: the field does the same on two rows of one length that hold the same
cell there (a string field is set to that cell when it is exported, and
`SetString` panics when it is not), and `Unmarshal` does the
same on two grids whose rows differ only in cells under earlier occurrences
of a name. -/
theorem Unmarshal_last_occurrence (t : StructType) (header : List String) (f : StructField)
    (tag : String) (htag : columnTag f = some tag) (hmem : tag ∈ header) :
    ∃ j : Nat, header[j]? = some tag ∧ (∀ j' : Nat, j < j' → header[j']? ≠ some tag) ∧
      Unmarshal.namePos header tag = some j ∧
      (∀ row row' : List String, row.length = row'.length → row[j]? = row'[j]? →
        unmarshalField row (Unmarshal.namePos header) f
          = unmarshalField row' (Unmarshal.namePos header) f) ∧
      (∀ (row : List String) (val : String), row[j]? = some val → f.Kind = .String →
        unmarshalField row (Unmarshal.namePos header) f
          = if f.IsExported then .set (.str val)
            else .stop (.panic (.unexportedField "SetString"))) ∧
      (∀ (rows rows' : List (List String)) (D : List Record),
        List.Forall₂ (AgreeOnLastColumns header) rows rows' →
        Unmarshal t (header :: rows) D = Unmarshal t (header :: rows') D) := by
  have hkey := Get_of_columnTag f tag htag
  cases hl : lastIndexOf header tag with
  | none => exact absurd hmem ((lastIndexOf_eq_none header tag).1 hl)
  | some j =>
    obtain ⟨h1, h2⟩ := lastIndexOf_eq_some header tag j hl
    have hpos : Unmarshal.namePos header tag = some j := by
      rw [Unmarshal.namePos_eq, hl]
    refine ⟨j, h1, h2, hpos, ?_, ?_, ?_⟩
    · intro row row' hlen hcell
      refine unmarshalField_congr_row _ f row row' hlen (fun pos hp => ?_)
      rw [hkey, hpos] at hp
      cases hp
      exact hcell
    · intro row val hval hk
      simp [unmarshalField, hkey, hpos, hval, hk, reflectSet]
    · intro rows rows' D hagree
      rw [Unmarshal, Unmarshal]
      exact Unmarshal.loop_agree t header rows rows' hagree D

/-- C14 at a header that holds the column name twice: the field `Name` is
read from position 3, and the cell at position 0 does not matter. -/
theorem Unmarshal_last_occurrence_witness :
    Unmarshal.namePos ["name", "age", "has_pet", "name"] "name" = some 3 ∧
      Unmarshal MyData [["name", "age", "has_pet", "name"], ["Jon", "100", "true", "Fred"]] []
        = Unmarshal MyData
            [["name", "age", "has_pet", "name"], ["other", "100", "true", "Fred"]] [] ∧
      Unmarshal MyData [["name", "age", "has_pet", "name"], ["Jon", "100", "true", "Fred"]] []
        = ([[.str "Fred", .int 100, .bool true]], .nil) := by
  obtain ⟨j, h1, h2, h3, -, -, h6⟩ := Unmarshal_last_occurrence MyData
    ["name", "age", "has_pet", "name"]
    { Name := "Name", Kind := .String, Tag := [("csv", "name")] } "name" (by decide) (by decide)
  refine ⟨by decide, ?_, by decide⟩
  exact h6 [["Jon", "100", "true", "Fred"]] [["other", "100", "true", "Fred"]] []
    (List.Forall₂.cons (by
      refine ⟨rfl, ?_⟩
      intro key j' hj'
      obtain ⟨hk, hlast⟩ := lastIndexOf_eq_some _ key j' hj'
      match j', hk, hlast with
      | 0, hk, hlast =>
        simp only [List.getElem?_cons_zero, Option.some.injEq] at hk
        subst hk
        exact absurd rfl (hlast 3 (by omega))
      | 1, _, _ => rfl
      | 2, _, _ => rfl
      | 3, _, _ => rfl
      | n + 4, hk, _ => simp at hk) List.Forall₂.nil)

/-! ## Boolean cells -/

/-- The spellings `ParseBool` reads as true. -/
theorem ParseBool_of_mem_trueSpellings (s : String) (h : s ∈ trueSpellings) :
    ParseBool s = .ok true := by
  simp only [trueSpellings, List.mem_cons, List.mem_singleton, List.not_mem_nil,
    or_false] at h
  rcases h with rfl | rfl | rfl | rfl | rfl | rfl <;> decide

/-- The spellings `ParseBool` reads as false. -/
theorem ParseBool_of_mem_falseSpellings (s : String) (h : s ∈ falseSpellings) :
    ParseBool s = .ok false := by
  simp only [falseSpellings, List.mem_cons, List.mem_singleton, List.not_mem_nil,
    or_false] at h
  rcases h with rfl | rfl | rfl | rfl | rfl | rfl <;> decide

/-- Every other text is rejected by `ParseBool`. -/
theorem ParseBool_of_not_mem (s : String) (ht : s ∉ trueSpellings) (hf : s ∉ falseSpellings) :
    ParseBool s = .error (.NumError "ParseBool" s .ErrSyntax) := by
  simp only [trueSpellings, List.mem_cons, List.mem_singleton, List.not_mem_nil,
    or_false] at ht
  simp only [falseSpellings, List.mem_cons, List.mem_singleton, List.not_mem_nil,
    or_false] at hf
  rw [ParseBool, if_neg ht, if_neg hf]

/-- No spelling is read both as true and as false. -/
theorem not_mem_trueSpellings_of_mem_falseSpellings (s : String) (h : s ∈ falseSpellings) :
    s ∉ trueSpellings := by
  simp only [falseSpellings, List.mem_cons, List.mem_singleton, List.not_mem_nil,
    or_false] at h
  rcases h with rfl | rfl | rfl | rfl | rfl | rfl <;> decide

/-- When the loop of `unmarshalOne` returns `nil`, a field that is set holds
the value it was set to. -/
theorem unmarshalOne.fill_set_field (row : List String) (m : NamePos) (f : StructField)
    (fs2 : List StructField) (w : Value) (hset : unmarshalField row m f = .set w) :
    ∀ (fs1 : List StructField) (vs1 : List Value), vs1.length = fs1.length →
      ∀ (z : Value) (vs2 : List Value),
        (unmarshalOne.fill row m (fs1 ++ f :: fs2) (vs1 ++ z :: vs2)).2 = .nil →
        (unmarshalOne.fill row m (fs1 ++ f :: fs2) (vs1 ++ z :: vs2)).1[fs1.length]?
          = some w := by
  intro fs1
  induction fs1 with
  | nil =>
    intro vs1 hlen z vs2 _
    cases vs1 with
    | cons v vs1 => simp at hlen
    | nil => simp [unmarshalOne.fill, hset]
  | cons g fs1 ih =>
    intro vs1 hlen z vs2 hnil
    cases vs1 with
    | nil => simp at hlen
    | cons v vs1 =>
      have hlen' : vs1.length = fs1.length := by simpa using hlen
      simp only [List.cons_append, unmarshalOne.fill, List.length_cons] at hnil ⊢
      cases hstep : unmarshalField row m g with
      | skip =>
        rw [hstep] at hnil
        simpa using ih vs1 hlen' z vs2 (by simpa using hnil)
      | set u =>
        rw [hstep] at hnil
        simpa using ih vs1 hlen' z vs2 (by simpa using hnil)
      | stop o =>
        rw [hstep] at hnil
        simp only at hnil
        subst hnil
        exact absurd hstep (unmarshalField_ne_stop_nil row m g)

/-- C12, as stated, fails: the texts tRuE and FaLSE are true and false up to
the case of their letters, and `Unmarshal` returns the syntax error of
`ParseBool` on each. -/
theorem Unmarshal_rejects_mixed_case :
    EqualUpToCase "tRuE" "true" ∧ EqualUpToCase "FaLSE" "false" ∧
      Unmarshal MyData [["name", "age", "has_pet"], ["Jon", "100", "tRuE"]] []
        = ([], .error (.NumError "ParseBool" "tRuE" .ErrSyntax)) ∧
      Unmarshal MyData [["name", "age", "has_pet"], ["Jon", "100", "FaLSE"]] []
        = ([], .error (.NumError "ParseBool" "FaLSE" .ErrSyntax)) := by
  decide

/-- C12 (boolean decode), amended. The cell of a bound field of kind bool is
read as true when it is one of 1, t, T, true, TRUE, True and as false when
it is one of 0, f, F, false, FALSE, False, and that boolean is set into the
field when the field is exported (on an unexported field `SetBool` panics);
on every other text the field ends the call with the syntax error of
`ParseBool` and `Unmarshal` does not succeed. When `Unmarshal` succeeds, the
struct appended for the row holds that boolean in the field. -/
theorem Unmarshal_bool_spellings (fs1 : List StructField) (f : StructField)
    (fs2 : List StructField) (header : List String) (pre : List (List String))
    (row : List String) (post : List (List String)) (D : List Record) (tag : String) (pos : Nat)
    (val : String)
    (hk : f.Kind = .Bool) (htag : columnTag f = some tag)
    (hpos : Unmarshal.namePos header tag = some pos) (hval : row[pos]? = some val) :
    (val ∈ trueSpellings →
        unmarshalField row (Unmarshal.namePos header) f
          = if f.IsExported then .set (.bool true)
            else .stop (.panic (.unexportedField "SetBool"))) ∧
      (val ∈ falseSpellings →
        unmarshalField row (Unmarshal.namePos header) f
          = if f.IsExported then .set (.bool false)
            else .stop (.panic (.unexportedField "SetBool"))) ∧
      (val ∉ trueSpellings → val ∉ falseSpellings →
        unmarshalField row (Unmarshal.namePos header) f
            = .stop (.error (.NumError "ParseBool" val .ErrSyntax)) ∧
          (Unmarshal (fs1 ++ f :: fs2) (header :: (pre ++ row :: post)) D).2 ≠ .nil) ∧
      ((Unmarshal (fs1 ++ f :: fs2) (header :: (pre ++ row :: post)) D).2 = .nil →
        ∃ r,
          (Unmarshal (fs1 ++ f :: fs2) (header :: (pre ++ row :: post)) D).1[D.length + pre.length]?
            = some r ∧
          r[fs1.length]? = some (.bool (decide (val ∈ trueSpellings)))) := by
  have hkey := Get_of_columnTag f tag htag
  have htrue : val ∈ trueSpellings →
      unmarshalField row (Unmarshal.namePos header) f
        = if f.IsExported then .set (.bool true)
          else .stop (.panic (.unexportedField "SetBool")) := by
    intro h
    simp [unmarshalField, hkey, hpos, hval, hk, ParseBool_of_mem_trueSpellings val h,
      reflectSet]
  have hfalse : val ∈ falseSpellings →
      unmarshalField row (Unmarshal.namePos header) f
        = if f.IsExported then .set (.bool false)
          else .stop (.panic (.unexportedField "SetBool")) := by
    intro h
    simp [unmarshalField, hkey, hpos, hval, hk, ParseBool_of_mem_falseSpellings val h,
      reflectSet]
  have hbad : val ∉ trueSpellings → val ∉ falseSpellings →
      unmarshalField row (Unmarshal.namePos header) f
        = .stop (.error (.NumError "ParseBool" val .ErrSyntax)) := by
    intro h1 h2
    simp [unmarshalField, hkey, hpos, hval, hk, ParseBool_of_not_mem val h1 h2]
  have hrowdec : (Unmarshal (fs1 ++ f :: fs2) (header :: (pre ++ row :: post)) D).2 = .nil →
      (unmarshalOne.fill row (Unmarshal.namePos header) (fs1 ++ f :: fs2)
        (zeroRecord (fs1 ++ f :: fs2))).2 = .nil := by
    intro hnil
    rw [Unmarshal] at hnil
    have hall := Unmarshal.loop_nil_all _ _ _ D hnil row (by simp)
    rw [unmarshalOne_eq_fill] at hall
    exact hall
  refine ⟨htrue, hfalse, ?_, ?_⟩
  · intro h1 h2
    refine ⟨hbad h1 h2, ?_⟩
    intro hnil
    have := unmarshalOne.fill_no_stop_of_nil row _ _ _ (by simp [zeroRecord]) (hrowdec hnil)
      f (by simp)
    rw [hbad h1 h2] at this
    simp [FieldStep.isStop] at this
  · intro hnil
    have hfill := hrowdec hnil
    have hnostop := unmarshalOne.fill_no_stop_of_nil row _ _ _ (by simp [zeroRecord]) hfill
      f (by simp)
    -- the row decodes, so the field does not end the call: it is exported and the cell is
    -- one of the twelve spellings
    have hx : f.IsExported = true := by
      cases hx : f.IsExported with
      | true => rfl
      | false =>
        exfalso
        by_cases h1 : val ∈ trueSpellings
        · rw [htrue h1, hx] at hnostop
          simp [FieldStep.isStop] at hnostop
        · by_cases h2 : val ∈ falseSpellings
          · rw [hfalse h2, hx] at hnostop
            simp [FieldStep.isStop] at hnostop
          · rw [hbad h1 h2] at hnostop
            simp [FieldStep.isStop] at hnostop
    have hstep : unmarshalField row (Unmarshal.namePos header) f
        = .set (.bool (decide (val ∈ trueSpellings))) := by
      by_cases h1 : val ∈ trueSpellings
      · simpa [h1, hx] using htrue h1
      · by_cases h2 : val ∈ falseSpellings
        · simpa [h1, hx] using hfalse h2
        · rw [hbad h1 h2] at hnostop
          simp [FieldStep.isStop] at hnostop
    obtain ⟨hz1, -, hz3⟩ := zeroRecord_insert fs1 f fs2
    have hcell := unmarshalOne.fill_set_field row (Unmarshal.namePos header) f fs2 _ hstep
      fs1 (zeroRecord fs1) hz3 (zeroValue f.Kind) (zeroRecord fs2) (by rw [← hz1]; exact hfill)
    rw [← hz1, ← unmarshalOne_eq_fill] at hcell
    refine ⟨(unmarshalOne row (Unmarshal.namePos header) (fs1 ++ f :: fs2)
      (zeroRecord (fs1 ++ f :: fs2))).1, ?_, hcell⟩
    rw [Unmarshal] at hnil ⊢
    have hall := Unmarshal.loop_nil_all _ _ _ D hnil
    rw [Unmarshal.loop_of_all_nil _ _ _ D hall]
    simp only [List.map_append, List.map_cons]
    rw [← List.append_assoc, List.getElem?_append_right (by simp)]
    simp

/-- C12 at the cell True in the has_pet column of `MyData`: the field is
exported, so it is set to true. -/
theorem Unmarshal_bool_spellings_witness :
    unmarshalField ["Jon", "100", "True"] (Unmarshal.namePos ["name", "age", "has_pet"])
        { Name := "HasPet", Kind := .Bool, Tag := [("csv", "has_pet")] }
      = .set (.bool true) ∧
    ∃ r, (Unmarshal MyData [["name", "age", "has_pet"], ["Jon", "100", "True"]] []).1[0]?
        = some r ∧ r[2]? = some (.bool true) := by
  have h := Unmarshal_bool_spellings
    [{ Name := "Name", Kind := .String, Tag := [("csv", "name")] },
      { Name := "Age", Kind := .Int, Tag := [("csv", "age")] }]
    { Name := "HasPet", Kind := .Bool, Tag := [("csv", "has_pet")] } []
    ["name", "age", "has_pet"] [] ["Jon", "100", "True"] [] [] "has_pet" 2 "True"
    (by decide) (by decide) (by decide) (by decide)
  exact ⟨h.1 (by decide), h.2.2.2 (by decide)⟩

/-! ## `Unmarshal` on kinds it has no case for -/

/-- A field of an unsupported kind whose key the map holds ends the call on
every row. -/
theorem unmarshalField_isStop_of_other (row : List String) (m : NamePos) (f : StructField)
    (k : OtherKind) (pos : Nat) (hk : f.Kind = .Other k)
    (hm : m (f.Tag.Get TAG_PREFIX) = some pos) :
    (unmarshalField row m f).isStop = true := by
  cases hr : row[pos]? with
  | none => simp [unmarshalField, hm, hr, FieldStep.isStop]
  | some val => simp [unmarshalField, hm, hr, hk, FieldStep.isStop]

/-- A field of an unsupported kind whose cell is in the row ends the call
with the error that names its kind. -/
theorem unmarshalField_of_other (row : List String) (m : NamePos) (f : StructField)
    (k : OtherKind) (pos : Nat) (hk : f.Kind = .Other k)
    (hm : m (f.Tag.Get TAG_PREFIX) = some pos) (hpos : pos < row.length) :
    unmarshalField row m f
      = .stop (.error (.Errorf "cannot handle field of %v" (.Other k))) := by
  obtain ⟨val, hval⟩ : ∃ val, row[pos]? = some val := ⟨_, List.getElem?_eq_getElem hpos⟩
  simp [unmarshalField, hm, hval, hk]

/-- A field ends the call with an error of `fmt.Errorf` only when it is of an
unsupported kind, the map holds its key and its cell is in the row. -/
theorem unmarshalField_eq_Errorf (row : List String) (m : NamePos) (f : StructField)
    (format : String) (kind : Kind)
    (h : unmarshalField row m f = .stop (.error (.Errorf format kind))) :
    ∃ k pos, f.Kind = .Other k ∧ kind = .Other k ∧ format = "cannot handle field of %v" ∧
      m (f.Tag.Get TAG_PREFIX) = some pos ∧ pos < row.length := by
  cases hm : m (f.Tag.Get TAG_PREFIX) with
  | none => simp [unmarshalField, hm] at h
  | some pos =>
    cases hr : row[pos]? with
    | none => simp [unmarshalField, hm, hr] at h
    | some val =>
      have hpos : pos < row.length := by
        by_contra hc
        rw [List.getElem?_eq_none (by omega)] at hr
        cases hr
      have hset : ∀ (method : String) (v : Value),
          reflectSet f method v ≠ .stop (.error (.Errorf format kind)) := by
        intro method v
        rcases reflectSet_cases f method v with hc | hc <;> rw [hc] <;> simp
      cases hk : f.Kind with
      | String => exact absurd (by simpa [unmarshalField, hm, hr, hk] using h) (hset _ _)
      | Int =>
        cases hp : ParseInt val with
        | ok i => exact absurd (by simpa [unmarshalField, hm, hr, hk, hp] using h) (hset _ _)
        | error e =>
          obtain ⟨c, hc⟩ := ParseInt_error val e hp
          simp [unmarshalField, hm, hr, hk, hp, hc] at h
      | Bool =>
        cases hp : ParseBool val with
        | ok b => exact absurd (by simpa [unmarshalField, hm, hr, hk, hp] using h) (hset _ _)
        | error e =>
          have he := ParseBool_error val e hp
          simp [unmarshalField, hm, hr, hk, hp, he] at h
      | Other k =>
        simp only [unmarshalField, hm, hr, hk, FieldStep.stop.injEq, Outcome.error.injEq,
          GoError.Errorf.injEq] at h
        exact ⟨k, pos, rfl, h.2.symm, h.1.symm, rfl, hpos⟩

/-- When the loop of `unmarshalOne` does not return `nil`, some field ended
the call that way, and no field before it did. -/
theorem unmarshalOne.fill_stop_field (row : List String) (m : NamePos) :
    ∀ (fs : List StructField) (vs : List Value) (o : Outcome),
      (unmarshalOne.fill row m fs vs).2 = o → o ≠ .nil →
      ∃ fs1 f fs2, fs = fs1 ++ f :: fs2 ∧
        (∀ g ∈ fs1, (unmarshalField row m g).isStop = false) ∧
        unmarshalField row m f = .stop o := by
  intro fs
  induction fs with
  | nil => intro vs o h ho; simp [unmarshalOne.fill] at h; exact absurd h.symm ho
  | cons f fs ih =>
    intro vs o h ho
    cases vs with
    | nil => simp [unmarshalOne.fill] at h; exact absurd h.symm ho
    | cons v vs =>
      rw [unmarshalOne.fill] at h
      cases hstep : unmarshalField row m f with
      | skip =>
        rw [hstep] at h
        obtain ⟨fs1, g, fs2, hfs, hno, hg⟩ := ih vs o (by simpa using h) ho
        refine ⟨f :: fs1, g, fs2, by simp [hfs], ?_, hg⟩
        intro x hx
        rcases List.mem_cons.1 hx with rfl | hmem
        · rw [hstep]; rfl
        · exact hno x hmem
      | set w =>
        rw [hstep] at h
        obtain ⟨fs1, g, fs2, hfs, hno, hg⟩ := ih vs o (by simpa using h) ho
        refine ⟨f :: fs1, g, fs2, by simp [hfs], ?_, hg⟩
        intro x hx
        rcases List.mem_cons.1 hx with rfl | hmem
        · rw [hstep]; rfl
        · exact hno x hmem
      | stop o' =>
        rw [hstep] at h
        simp only at h
        subst h
        exact ⟨[], f, fs, rfl, by simp, hstep⟩

/-- When the loop of `Unmarshal` does not return `nil`, some row ended that
way. -/
theorem Unmarshal.loop_stop_row (t : StructType) (m : NamePos) (rows : List (List String))
    (o : Outcome) (ho : o ≠ .nil) :
    ∀ D : List Record, (Unmarshal.loop t m rows D).2 = o →
      ∃ row ∈ rows, (unmarshalOne row m t (zeroRecord t)).2 = o := by
  induction rows with
  | nil => intro D h; simp [Unmarshal.loop] at h; exact absurd h.symm ho
  | cons row rest ih =>
    intro D h
    rw [Unmarshal.loop] at h
    rcases hu : unmarshalOne row m t (zeroRecord t) with ⟨newVal, o'⟩
    rw [hu] at h
    cases o' with
    | nil =>
      obtain ⟨r, hr, hro⟩ := ih _ h
      exact ⟨r, List.mem_cons_of_mem _ hr, hro⟩
    | error e => exact ⟨row, List.mem_cons_self _ _, by rw [hu]; exact h⟩
    | panic q => exact ⟨row, List.mem_cons_self _ _, by rw [hu]; exact h⟩

/-- The unsupported-kind error of `Unmarshal`, on the code. On a grid whose
first data row is as long as the header, `Unmarshal` returns an error of
`fmt.Errorf` exactly when some field of a kind other than string, int or
bool is looked up under a name the header holds and no field declared before
it ends the call on the first data row; the call then ends on the first data
row, with the error that names the kind of that field, and the destination
is as it was. -/
theorem Unmarshal_unsupported_kind_iff (t : StructType) (header row : List String)
    (rest : List (List String)) (D : List Record) (hlen : header.length ≤ row.length) :
    ((∃ format kind,
        (Unmarshal t (header :: row :: rest) D).2 = .error (.Errorf format kind)) ↔
      ∃ fs1 f fs2 k, t = fs1 ++ f :: fs2 ∧ f.Kind = .Other k ∧
        (Unmarshal.namePos header (f.Tag.Get TAG_PREFIX)).isSome ∧
        ∀ g ∈ fs1, (unmarshalField row (Unmarshal.namePos header) g).isStop = false) ∧
      ∀ fs1 f fs2 k, t = fs1 ++ f :: fs2 → f.Kind = .Other k →
        (Unmarshal.namePos header (f.Tag.Get TAG_PREFIX)).isSome →
        (∀ g ∈ fs1, (unmarshalField row (Unmarshal.namePos header) g).isStop = false) →
        Unmarshal t (header :: row :: rest) D
          = (D, .error (.Errorf "cannot handle field of %v" (.Other k))) := by
  have hback : ∀ fs1 f fs2 k, t = fs1 ++ f :: fs2 → f.Kind = .Other k →
      (Unmarshal.namePos header (f.Tag.Get TAG_PREFIX)).isSome →
      (∀ g ∈ fs1, (unmarshalField row (Unmarshal.namePos header) g).isStop = false) →
      Unmarshal t (header :: row :: rest) D
        = (D, .error (.Errorf "cannot handle field of %v" (.Other k))) := by
    intro fs1 f fs2 k ht hk hsome hno
    obtain ⟨pos, hm⟩ := Option.isSome_iff_exists.1 hsome
    have hpos := Unmarshal.namePos_lt_length header _ pos hm
    have hstop := unmarshalField_of_other row _ f k pos hk hm (by omega)
    have hone : (unmarshalOne row (Unmarshal.namePos header) t (zeroRecord t)).2
        = .error (.Errorf "cannot handle field of %v" (.Other k)) := by
      rw [unmarshalOne_eq_fill, ht]
      exact unmarshalOne.fill_first_stop row _ f fs2 _ hstop fs1 _ (by simp [zeroRecord]) hno
    rw [Unmarshal, Unmarshal.loop_cons_stop t _ row rest D (by rw [hone]; simp), hone]
  refine ⟨⟨?_, ?_⟩, hback⟩
  · rintro ⟨format, kind, h⟩
    rw [Unmarshal] at h
    obtain ⟨r, hr, hro⟩ := Unmarshal.loop_stop_row t _ (row :: rest) _ (by simp) D h
    rw [unmarshalOne_eq_fill] at hro
    obtain ⟨fs1, f, fs2, ht, -, hf⟩ := unmarshalOne.fill_stop_field r _ t _ _ hro (by simp)
    obtain ⟨k, pos, hk, -, -, hm, -⟩ := unmarshalField_eq_Errorf r _ f format kind hf
    -- the field ends the call on the first data row too, so that row is the one that fails
    have hstop1 := unmarshalField_isStop_of_other row _ f k pos hk hm
    have hne : (unmarshalOne row (Unmarshal.namePos header) t (zeroRecord t)).2 ≠ .nil := by
      intro hnil
      rw [unmarshalOne_eq_fill] at hnil
      have := unmarshalOne.fill_no_stop_of_nil row _ t _ (by simp [zeroRecord]) hnil f
        (by simp [ht])
      rw [this] at hstop1
      cases hstop1
    rw [Unmarshal.loop_cons_stop t (Unmarshal.namePos header) row rest D hne] at h
    simp only at h
    rw [unmarshalOne_eq_fill] at h
    obtain ⟨gs1, g, gs2, ht', hno, hg⟩ := unmarshalOne.fill_stop_field row _ t _ _ h (by simp)
    obtain ⟨j, pos', hj, -, -, hm', -⟩ := unmarshalField_eq_Errorf row _ g format kind hg
    exact ⟨gs1, g, gs2, j, ht', hj, by simp [hm'], hno⟩
  · rintro ⟨fs1, f, fs2, k, ht, hk, hsome, hno⟩
    exact ⟨_, _, by rw [hback fs1 f fs2 k ht hk hsome hno]⟩

/-- The unsupported-kind error of `Unmarshal` in terms of bound fields: under
a header without an empty column name, the field that is looked up is a
bound field whose column tag the header holds. -/
theorem Unmarshal_unsupported_kind_bound (t : StructType) (header row : List String)
    (rest : List (List String)) (D : List Record) (hlen : header.length ≤ row.length)
    (hempty : "" ∉ header) :
    (∃ format kind,
        (Unmarshal t (header :: row :: rest) D).2 = .error (.Errorf format kind)) ↔
      ∃ fs1 f fs2 k tag, t = fs1 ++ f :: fs2 ∧ f.Kind = .Other k ∧
        columnTag f = some tag ∧ tag ∈ header ∧
        ∀ g ∈ fs1, (unmarshalField row (Unmarshal.namePos header) g).isStop = false := by
  rw [(Unmarshal_unsupported_kind_iff t header row rest D hlen).1]
  constructor
  · rintro ⟨fs1, f, fs2, k, ht, hk, hsome, hno⟩
    have hin : f.Tag.Get TAG_PREFIX ∈ header := by
      by_contra hc
      rw [Unmarshal.namePos_eq, (lastIndexOf_eq_none _ _).2 hc] at hsome
      cases hsome
    cases htag : columnTag f with
    | none =>
      rw [Get_of_columnTag_none f htag] at hin
      exact absurd hin hempty
    | some tag =>
      rw [Get_of_columnTag f tag htag] at hin
      exact ⟨fs1, f, fs2, k, tag, ht, hk, htag, hin, hno⟩
  · rintro ⟨fs1, f, fs2, k, tag, ht, hk, htag, hin, hno⟩
    refine ⟨fs1, f, fs2, k, ht, hk, ?_, hno⟩
    rw [Get_of_columnTag f tag htag, Unmarshal.namePos_eq]
    cases hl : lastIndexOf header tag with
    | none => exact absurd hin ((lastIndexOf_eq_none _ _).1 hl)
    | some j => rfl

/-- C18 on the code: the field `Extra` of `NamedExtra` is of kind float64 and
has no column tag, yet under a header with an empty column name `Unmarshal`
returns the unsupported-kind error for it; the only bound field, `Name`, is
a string. -/
theorem Unmarshal_unsupported_untagged_field :
    boundTags NamedExtra = ["name"] ∧ SupportedKinds NamedExtra ∧
      Unmarshal NamedExtra [["name", ""], ["Jon", "1.5"]] []
        = ([], .error (.Errorf "cannot handle field of %v" (.Other .Float64))) := by
  decide

end DataMarshaler
